import Mathlib

/-!
# Designware HDMI CEC driver: embedding of `drivers/gpu/drm/bridge/dw-hdmi-cec.c`

The driver state `struct dw_hdmi_cec`, the byte-wide register block behind
`cec->base` and the calls the driver makes to its collaborators are modelled by
explicit state passing over a `World`:

* `cec`   : the fields of `struct dw_hdmi_cec` the entry points touch;
* `regs`  : the register block as a byte store indexed by register offset;
* `trace` : every register read, register write and collaborator call, oldest
  first, so that order and number of accesses can be stated.

`u8`/`u32` values are naturals reduced modulo `2^8`/`2^32` where the C code
converts; `int retries` is an integer.  Memory barriers (`smp_wmb`, `smp_rmb`)
have no counterpart in this sequential model.  What the hardware does to the
registers between two driver calls (setting status bits, clearing the start
bit, ...) is an explicit environment step `Op.hw`.
-/

namespace DwHdmiCec

/-! ## Register map and bit names (the anonymous `enum`, lines 26-54) -/

/-- The kernel's `BIT(n)`, that is `1UL << n`. -/
def BIT (n : Nat) : Nat := 1 <<< n

def HDMI_IH_CEC_STAT0 : Nat := 0x0106
def HDMI_IH_MUTE_CEC_STAT0 : Nat := 0x0186
def HDMI_CEC_CTRL : Nat := 0x7d00
def CEC_CTRL_START : Nat := BIT 0
def CEC_CTRL_NORMAL : Nat := 1 <<< 1
def HDMI_CEC_STAT : Nat := 0x7d01
def CEC_STAT_DONE : Nat := BIT 0
def CEC_STAT_EOM : Nat := BIT 1
def CEC_STAT_NACK : Nat := BIT 2
def CEC_STAT_ARBLOST : Nat := BIT 3
def CEC_STAT_ERROR_INIT : Nat := BIT 4
def CEC_STAT_ERROR_FOLL : Nat := BIT 5
def CEC_STAT_WAKEUP : Nat := BIT 6
def HDMI_CEC_MASK : Nat := 0x7d02
def HDMI_CEC_POLARITY : Nat := 0x7d03
def HDMI_CEC_INT : Nat := 0x7d04
def HDMI_CEC_ADDR_L : Nat := 0x7d05
def HDMI_CEC_ADDR_H : Nat := 0x7d06
def HDMI_CEC_TX_CNT : Nat := 0x7d07
def HDMI_CEC_RX_CNT : Nat := 0x7d08
def HDMI_CEC_TX_DATA0 : Nat := 0x7d10
def HDMI_CEC_RX_DATA0 : Nat := 0x7d20
def HDMI_CEC_LOCK : Nat := 0x7d30
def HDMI_CEC_WKUPCTRL : Nat := 0x7d31

/-! ## Names the driver takes from headers outside the sources -/

/-- Modelled from the spec: `CEC_LOG_ADDR_INVALID` of `media/cec.h`, which is not
among the sources; the "invalid" sentinel of `set_logical_address`, the byte
`0xff`. -/
def CEC_LOG_ADDR_INVALID : Nat := 0xff

/-- Modelled from the spec: `sizeof(cec->rx_msg.msg)`, the capacity of the frame
buffer of `struct cec_msg` (`media/cec.h`, not among the sources): 16 bytes. -/
def CEC_MAX_MSG_SIZE : Nat := 16

/-- The transmit status codes `CEC_TX_STATUS_OK`, `CEC_TX_STATUS_NACK` and
`CEC_TX_STATUS_MAX_RETRIES` of `media/cec.h`.  The header is not among the
sources, so the three values are a parameter of the interrupt handler. -/
structure cec_tx_status where
  CEC_TX_STATUS_OK : Nat
  CEC_TX_STATUS_NACK : Nat
  CEC_TX_STATUS_MAX_RETRIES : Nat

/-- The values of `irqreturn_t` the driver returns. -/
inductive irqreturn_t where
  | IRQ_NONE
  | IRQ_HANDLED
  | IRQ_WAKE_THREAD
  deriving DecidableEq, Repr

/-! ## Data model -/

/-- The two fields of `struct cec_msg` the driver uses: `len` and the byte
array `msg`, indexed by position (only positions below 16 exist in C). -/
structure cec_msg where
  len : Nat
  msg : Nat → Nat

/-- The fields of `struct dw_hdmi_cec` (lines 56-69) that the operations read or
write.  `base`, `adap`, `ops`, `ops_data`, `notify` and `irq` are handles. -/
structure dw_hdmi_cec where
  addresses : Nat
  rx_msg : cec_msg
  tx_status : Nat
  tx_done : Bool
  rx_done : Bool
  retries : Int

/-- What the driver does to the outside, in program order. -/
inductive Ev where
  /-- Call `readb_relaxed(base + off)`. -/
  | rd (off : Nat)
  /-- Call `writeb_relaxed(val, base + off)`; `val` is the byte stored. -/
  | wr (val off : Nat)
  /-- Call `cec->ops->enable(cec->ops_data)`. -/
  | hw_enable
  /-- Call `cec->ops->disable(cec->ops_data)`. -/
  | hw_disable
  /-- Call `cec_transmit_done(adap, status, arb_lost, nack, low_drive, error)`. -/
  | transmit_done (status arb_lost_cnt nack_cnt low_drive_cnt error_cnt : Nat)
  /-- Call `cec_received_msg(adap, &cec->rx_msg)` with the buffer as it is then. -/
  | received_msg (m : cec_msg)

/-- Driver state, register block and trace of accesses. -/
structure World where
  cec : dw_hdmi_cec
  regs : Nat → Nat
  trace : List Ev

/-- The controller as `devm_kzalloc` leaves it: every field zero. -/
def cec_zero : dw_hdmi_cec :=
  { addresses := 0, rx_msg := { len := 0, msg := fun _ => 0 }, tx_status := 0,
    tx_done := false, rx_done := false, retries := 0 }

/-- A zero-initialised controller in front of a register block `regs`. -/
def World.init (regs : Nat → Nat) : World :=
  { cec := cec_zero, regs := regs, trace := [] }

/-- Store `v` at index `i` of a byte store. -/
def store (f : Nat → Nat) (i v : Nat) : Nat → Nat :=
  fun j => if j = i then v else f j

/-- The kernel's `readb_relaxed`: the byte at `off`, and the read is recorded. -/
def readb_relaxed (off : Nat) (w : World) : Nat × World :=
  (w.regs off % 256, { w with trace := w.trace ++ [Ev.rd off] })

/-- The kernel's `writeb_relaxed`: `val` is converted to `u8` and stored. -/
def writeb_relaxed (val off : Nat) (w : World) : World :=
  { w with regs := store w.regs off (val % 256),
           trace := w.trace ++ [Ev.wr (val % 256) off] }

/-- Bitwise complement of an `unsigned`/`int` operand (32 bits). -/
def not32 (x : Nat) : Nat := (2 ^ 32 - 1) - x % 2 ^ 32

/-! ## The operations -/

/-- Lines 71-85.  `logical_addr` is a `u8` parameter; `addresses` is `u32`.
For `logical_addr` of 32 and more the shift is undefined in C on a 32-bit
kernel; the model shifts and truncates. -/
def dw_hdmi_cec_log_addr (logical_addr : Nat) (w : World) : Int × World :=
  let logical_addr := logical_addr % 256
  let addresses :=
    if logical_addr = CEC_LOG_ADDR_INVALID then 0
    else (w.cec.addresses ||| (BIT logical_addr ||| BIT 15)) % 2 ^ 32
  let w := { w with cec := { w.cec with addresses := addresses } }
  let w := writeb_relaxed (addresses &&& 255) HDMI_CEC_ADDR_L w
  let w := writeb_relaxed (addresses >>> 8) HDMI_CEC_ADDR_H w
  (0, w)

/-- The loop of lines 95-96 for `i` in `[0, n)`. -/
def tx_data_loop (msg : cec_msg) (n : Nat) (w : World) : World :=
  (List.range n).foldl
    (fun w i => writeb_relaxed (msg.msg i) (HDMI_CEC_TX_DATA0 + i) w) w

/-- Lines 87-102.  `attempts` is a `u8` parameter; the `signal_free_time`
parameter is not used by the body. -/
def dw_hdmi_cec_transmit (attempts _signal_free_time : Nat) (msg : cec_msg)
    (w : World) : Int × World :=
  let w := { w with cec := { w.cec with retries := ((attempts % 256 : Nat) : Int) } }
  let w := tx_data_loop msg msg.len w
  let w := writeb_relaxed msg.len HDMI_CEC_TX_CNT w
  let w := writeb_relaxed (CEC_CTRL_NORMAL ||| CEC_CTRL_START) HDMI_CEC_CTRL w
  (0, w)

/-- Lines 116-134: the transmit-outcome chain of the interrupt handler, given
the status byte; returns the new value of `ret`. -/
def hardirq_tx (k : cec_tx_status) (stat : Nat) (w : World) : irqreturn_t × World :=
  if stat &&& CEC_STAT_ERROR_INIT ≠ 0 then
    if w.cec.retries ≠ 0 then
      let (v, w) := readb_relaxed HDMI_CEC_CTRL w
      let w := writeb_relaxed (v ||| CEC_CTRL_START) HDMI_CEC_CTRL w
      (irqreturn_t.IRQ_HANDLED, { w with cec := { w.cec with retries := w.cec.retries - 1 } })
    else
      (irqreturn_t.IRQ_WAKE_THREAD,
        { w with cec := { w.cec with tx_status := k.CEC_TX_STATUS_MAX_RETRIES, tx_done := true } })
  else if stat &&& CEC_STAT_DONE ≠ 0 then
    (irqreturn_t.IRQ_WAKE_THREAD,
      { w with cec := { w.cec with tx_status := k.CEC_TX_STATUS_OK, tx_done := true } })
  else if stat &&& CEC_STAT_NACK ≠ 0 then
    (irqreturn_t.IRQ_WAKE_THREAD,
      { w with cec := { w.cec with tx_status := k.CEC_TX_STATUS_NACK, tx_done := true } })
  else
    (irqreturn_t.IRQ_HANDLED, w)

/-- The loop of lines 144-146 for `i` in `[0, n)`. -/
def rx_data_loop (n : Nat) (w : World) : World :=
  (List.range n).foldl
    (fun w i =>
      let (b, w) := readb_relaxed (HDMI_CEC_RX_DATA0 + i) w
      { w with cec := { w.cec with rx_msg := { w.cec.rx_msg with msg := store w.cec.rx_msg.msg i b } } })
    w

/-- Lines 136-155: the receive block of the interrupt handler, given the status
byte and the value of `ret` so far. -/
def hardirq_rx (stat : Nat) (ret : irqreturn_t) (w : World) : irqreturn_t × World :=
  if stat &&& CEC_STAT_EOM ≠ 0 then
    let (len, w) := readb_relaxed HDMI_CEC_RX_CNT w
    let len := if len > CEC_MAX_MSG_SIZE then CEC_MAX_MSG_SIZE else len
    let w := rx_data_loop len w
    let w := writeb_relaxed 0 HDMI_CEC_LOCK w
    let w := { w with cec := { w.cec with rx_msg := { w.cec.rx_msg with len := len } } }
    let w := { w with cec := { w.cec with rx_done := true } }
    (irqreturn_t.IRQ_WAKE_THREAD, w)
  else
    (ret, w)

/-- Lines 104-158. -/
def dw_hdmi_cec_hardirq (k : cec_tx_status) (w : World) : irqreturn_t × World :=
  let (stat, w) := readb_relaxed HDMI_IH_CEC_STAT0 w
  if stat = 0 then
    (irqreturn_t.IRQ_NONE, w)
  else
    let w := writeb_relaxed stat HDMI_IH_CEC_STAT0 w
    let (ret, w) := hardirq_tx k stat w
    hardirq_rx stat ret w

/-- Lines 160-175. -/
def dw_hdmi_cec_thread (w : World) : irqreturn_t × World :=
  let w :=
    if w.cec.tx_done then
      let w := { w with cec := { w.cec with tx_done := false } }
      { w with trace := w.trace ++ [Ev.transmit_done w.cec.tx_status 0 0 0 0] }
    else w
  let w :=
    if w.cec.rx_done then
      let w := { w with cec := { w.cec with rx_done := false } }
      { w with trace := w.trace ++ [Ev.received_msg w.cec.rx_msg] }
    else w
  (irqreturn_t.IRQ_HANDLED, w)

/-- Lines 177-205.  The two callbacks are opaque to the driver: the model
records the call and takes it to leave the CEC register block alone. -/
def dw_hdmi_cec_enable (enable : Bool) (w : World) : Int × World :=
  if !enable then
    let w := writeb_relaxed (not32 0) HDMI_CEC_MASK w
    let w := writeb_relaxed (not32 0) HDMI_IH_MUTE_CEC_STAT0 w
    let w := writeb_relaxed 0 HDMI_CEC_POLARITY w
    let w := { w with trace := w.trace ++ [Ev.hw_disable] }
    (0, w)
  else
    let w := writeb_relaxed 0 HDMI_CEC_CTRL w
    let w := writeb_relaxed (not32 0) HDMI_IH_CEC_STAT0 w
    let w := writeb_relaxed 0 HDMI_CEC_LOCK w
    let w := (dw_hdmi_cec_log_addr CEC_LOG_ADDR_INVALID w).2
    let w := { w with trace := w.trace ++ [Ev.hw_enable] }
    let irqs := CEC_STAT_ERROR_INIT ||| CEC_STAT_NACK ||| CEC_STAT_EOM ||| CEC_STAT_DONE
    let w := writeb_relaxed irqs HDMI_CEC_POLARITY w
    let w := writeb_relaxed (not32 irqs) HDMI_CEC_MASK w
    let w := writeb_relaxed (not32 irqs) HDMI_IH_MUTE_CEC_STAT0 w
    (0, w)

/-! ## Runs of the driver against its environment -/

/-- One thing that can happen to a controller: a call of one of its five entry
points, or the hardware changing the contents of the register block. -/
inductive Op where
  | log_addr (logical_addr : Nat)
  | transmit (attempts signal_free_time : Nat) (msg : cec_msg)
  | enable (enable : Bool)
  | hardirq
  | thread
  | hw (f : (Nat → Nat) → (Nat → Nat))

/-- Effect of one `Op` on the world. -/
def step (k : cec_tx_status) : Op → World → World
  | Op.log_addr la, w => (dw_hdmi_cec_log_addr la w).2
  | Op.transmit a t m, w => (dw_hdmi_cec_transmit a t m w).2
  | Op.enable b, w => (dw_hdmi_cec_enable b w).2
  | Op.hardirq, w => (dw_hdmi_cec_hardirq k w).2
  | Op.thread, w => (dw_hdmi_cec_thread w).2
  | Op.hw f, w => { w with regs := f w.regs }

/-- Effect of a sequence of `Op`s, first to last. -/
def run (k : cec_tx_status) (ops : List Op) (w : World) : World :=
  ops.foldl (fun w o => step k o w) w

/-- Arguments the framework passes to the address filter: a logical address
in `[0,14]` or the invalid sentinel.  No restriction on the other steps. -/
def Op.addr_ok : Op → Prop
  | Op.log_addr la => la ≤ 14 ∨ la = CEC_LOG_ADDR_INVALID
  | _ => True

/-- The status byte the interrupt handler reads on entry (line 108). -/
def irq_stat (w : World) : Nat := w.regs HDMI_IH_CEC_STAT0 % 256

/-- The world after the handler has read a status and written it back
(lines 108 and 114). -/
def acked (w : World) : World :=
  writeb_relaxed (irq_stat w) HDMI_IH_CEC_STAT0 (readb_relaxed HDMI_IH_CEC_STAT0 w).2

/-- The register writes of a trace, as `(value, offset)`, in order. -/
def writes : List Ev → List (Nat × Nat)
  | [] => []
  | Ev.wr v off :: t => (v, off) :: writes t
  | _ :: t => writes t

/-- The offsets read in a trace, in order. -/
def reads : List Ev → List Nat
  | [] => []
  | Ev.rd off :: t => off :: reads t
  | _ :: t => reads t

/-- The transmit completions of a trace, as `(status, arb_lost, nack,
low_drive, error)`, in order. -/
def completions : List Ev → List (Nat × Nat × Nat × Nat × Nat)
  | [] => []
  | Ev.transmit_done s a n l e :: t => (s, a, n, l, e) :: completions t
  | _ :: t => completions t

/-- The frames handed to `cec_received_msg` in a trace, in order. -/
def received : List Ev → List cec_msg
  | [] => []
  | Ev.received_msg m :: t => m :: received t
  | _ :: t => received t

/-- Effect of calling `dw_hdmi_cec_log_addr` with each address of `as` in turn. -/
def log_addr_seq (as : List Nat) (w : World) : World :=
  as.foldl (fun w a => (dw_hdmi_cec_log_addr a w).2) w

/-- Bitwise OR of the address bits `BIT a` for `a` in `as`. -/
def or_bits (as : List Nat) : Nat :=
  as.foldr (fun a acc => BIT a ||| acc) 0

/-- The values written to the control register in a trace, in order. -/
def ctrl_writes : List Ev → List Nat
  | [] => []
  | Ev.wr v off :: t => if off = HDMI_CEC_CTRL then v :: ctrl_writes t else ctrl_writes t
  | _ :: t => ctrl_writes t

/-- The retries of a trace: the writes to the control register that have the
start bit set, in order. -/
def start_writes (tr : List Ev) : List Nat :=
  (ctrl_writes tr).filter (fun v => v &&& CEC_CTRL_START ≠ 0)

/-- The hardware changes the register block by `f` and raises the interrupt
status `s`. -/
def raise (s : Nat) (f : (Nat → Nat) → (Nat → Nat)) : Op :=
  Op.hw (fun r => store (f r) HDMI_IH_CEC_STAT0 s)

/-- One interrupt: the hardware raises status `s`, then the handler runs. -/
def irq (s : Nat) (f : (Nat → Nat) → (Nat → Nat)) : List Op :=
  [raise s f, Op.hardirq]

/-- The threaded handler run `n` times. -/
def threads (n : Nat) : List Op := List.replicate n Op.thread

/-- A run of interrupts, each preceded by some runs of the threaded handler:
an entry `(t, s, f)` is `t` runs of the thread and then an interrupt with
status `s`. -/
def rounds : List (Nat × Nat × ((Nat → Nat) → (Nat → Nat))) → List Op
  | [] => []
  | (t, s, f) :: xs => threads t ++ irq s f ++ rounds xs

/-- A run of consecutive interrupts with the given statuses. -/
def irqs : List (Nat × ((Nat → Nat) → (Nat → Nat))) → List Op
  | [] => []
  | (s, f) :: xs => irq s f ++ irqs xs

/-- The invariant of the claimed-address bitmap: nothing above bit 15, and
bit 15 is set exactly when one of the bits 0..14 is. -/
def addr_inv (a : Nat) : Prop :=
  a < 2 ^ 16 ∧ (a.testBit 15 = true ↔ ∃ i, i < 15 ∧ a.testBit i = true)

/-- The invariant of the transmit handoff: a pending completion carries one
of the three outcomes, and so did every completion delivered so far, with all
four counters 0. -/
def tx_inv (k : cec_tx_status) (w : World) : Prop :=
  (w.cec.tx_done = true →
    w.cec.tx_status = k.CEC_TX_STATUS_OK ∨ w.cec.tx_status = k.CEC_TX_STATUS_NACK ∨
    w.cec.tx_status = k.CEC_TX_STATUS_MAX_RETRIES) ∧
  (∀ c ∈ completions w.trace,
    (c.1 = k.CEC_TX_STATUS_OK ∨ c.1 = k.CEC_TX_STATUS_NACK ∨
      c.1 = k.CEC_TX_STATUS_MAX_RETRIES) ∧ c.2 = (0, 0, 0, 0))

/-- The ping frame `[0x10]`. -/
def ping : cec_msg := { len := 1, msg := fun i => if i = 0 then 0x10 else 0 }

/-- The reads of receive-data registers in a trace, in order. -/
def rx_data_reads : List Ev → List Nat
  | [] => []
  | Ev.rd off :: t =>
    if HDMI_CEC_RX_DATA0 ≤ off ∧ off < HDMI_CEC_RX_DATA0 + CEC_MAX_MSG_SIZE
    then off :: rx_data_reads t else rx_data_reads t
  | _ :: t => rx_data_reads t

/-- The invariant of the receive buffer: the stored length, and the length of
every frame delivered so far, is at most 16. -/
def rx_inv (w : World) : Prop :=
  w.cec.rx_msg.len ≤ CEC_MAX_MSG_SIZE ∧ ∀ m ∈ received w.trace, m.len ≤ CEC_MAX_MSG_SIZE

/-- A register block that reports end-of-message and a receive length of 20. -/
def regs_rx20 : Nat → Nat :=
  fun a => if a = HDMI_IH_CEC_STAT0 then 0x02 else if a = HDMI_CEC_RX_CNT then 20 else 0

/-- A fresh controller that has claimed logical address 0. -/
def world_claimed : World := (dw_hdmi_cec_log_addr 0 (World.init (fun _ => 0))).2

/-- Whether the handler, on status `stat` with `retries` retries left, executes
one of the assignments `cec->tx_done = true` (lines 123, 128, 132). -/
def tx_done_assigned (stat : Nat) (retries : Int) : Bool :=
  if stat &&& CEC_STAT_ERROR_INIT ≠ 0 then decide (retries = 0)
  else decide (stat &&& CEC_STAT_DONE ≠ 0 ∨ stat &&& CEC_STAT_NACK ≠ 0)

/-- Whether the handler, on status `stat`, executes the assignment
`cec->rx_done = true` (line 152). -/
def rx_done_assigned (stat : Nat) : Bool :=
  decide (stat &&& CEC_STAT_EOM ≠ 0)

/-- A register block that reports init-error, NACK and done at once. -/
def regs_all_tx : Nat → Nat :=
  fun a => if a = HDMI_IH_CEC_STAT0 then 0x15 else 0

/-- A register block that reports init-error only. -/
def regs_init_error : Nat → Nat :=
  fun a => if a = HDMI_IH_CEC_STAT0 then 0x10 else 0

/-- What the transmit-outcome chain does to the outside on status `stat` in
world `w`: on a retry, the read and the write of the control register. -/
def tx_events (stat : Nat) (w : World) : List Ev :=
  if stat &&& CEC_STAT_ERROR_INIT ≠ 0 ∧ w.cec.retries ≠ 0 then
    [Ev.rd HDMI_CEC_CTRL,
     Ev.wr ((w.regs HDMI_CEC_CTRL % 256 ||| CEC_CTRL_START) % 256) HDMI_CEC_CTRL]
  else []

/-- What the receive block does to the outside on status `stat` in world `w`:
on end-of-message, the read of the length, the reads of the data registers
and the write of the lock register. -/
def rx_events (stat : Nat) (w : World) : List Ev :=
  if stat &&& CEC_STAT_EOM ≠ 0 then
    Ev.rd HDMI_CEC_RX_CNT ::
      ((List.range (min (w.regs HDMI_CEC_RX_CNT % 256) 16)).map
        (fun i => Ev.rd (HDMI_CEC_RX_DATA0 + i)) ++ [Ev.wr 0 HDMI_CEC_LOCK])
  else []

/-- A register block that reports end-of-message with a 16-byte frame whose
byte `i` is `0xA0 + i`. -/
def regs_rx16 : Nat → Nat :=
  fun a => if a = HDMI_IH_CEC_STAT0 then 0x02 else if a = HDMI_CEC_RX_CNT then 16
    else if HDMI_CEC_RX_DATA0 ≤ a ∧ a < HDMI_CEC_RX_DATA0 + 16
    then 0xA0 + (a - HDMI_CEC_RX_DATA0) else 0

/-- A register block that reports end-of-message with a 2-byte frame whose
bytes are `0x11`. -/
def regs_rx2 : Nat → Nat :=
  fun a => if a = HDMI_IH_CEC_STAT0 then 0x02 else if a = HDMI_CEC_RX_CNT then 2
    else if HDMI_CEC_RX_DATA0 ≤ a ∧ a < HDMI_CEC_RX_DATA0 + 16 then 0x11 else 0

/-- A register block that reports init-error and end-of-message with a 2-byte
frame. -/
def regs_err_rx2 : Nat → Nat :=
  fun a => if a = HDMI_IH_CEC_STAT0 then 0x12 else if a = HDMI_CEC_RX_CNT then 2 else 0

/-- The `attempts` argument of the most recent transmit among `ops`, or `b` if
there is none. -/
def last_attempts_from (b : Nat) (ops : List Op) : Nat :=
  ops.foldl (fun acc o => match o with
    | Op.transmit a _ _ => a
    | _ => acc) b

/-- The `attempts` argument of the most recent transmit of a run from the
zero-initialised controller, 0 before the first transmit. -/
def last_attempts (ops : List Op) : Nat := last_attempts_from 0 ops

/-- The `attempts` argument of a transmit is an 8-bit value. -/
def Op.attempts_ok : Op → Prop
  | Op.transmit a _ _ => a ≤ 255
  | _ => True

/-! ## The interrupt handler with its assignments in program order

The trace of a `World` records what the driver does to the outside.  To state
when, relative to the register accesses, the handler assigns the fields of the
controller, lines 104-158 are embedded a second time with every assignment to
a field of `struct dw_hdmi_cec` recorded as a step as well. -/

/-- The fields of `struct dw_hdmi_cec` the interrupt handler assigns. -/
inductive Field where
  | retries
  | tx_status
  | tx_done
  | rx_msg
  | rx_done
  deriving DecidableEq, Repr

/-- One step of the handler: an access to the outside, or an assignment to a
field of the controller. -/
inductive Step where
  | ev (e : Ev)
  | upd (f : Field)

/-- A world and the steps taken so far, oldest first. -/
structure Logged where
  w : World
  log : List Step

/-- Call `readb_relaxed`, recorded as a step. -/
def log_readb (off : Nat) (l : Logged) : Nat × Logged :=
  ((readb_relaxed off l.w).1,
    { w := (readb_relaxed off l.w).2, log := l.log ++ [Step.ev (Ev.rd off)] })

/-- Call `writeb_relaxed`, recorded as a step. -/
def log_writeb (val off : Nat) (l : Logged) : Logged :=
  { w := writeb_relaxed val off l.w, log := l.log ++ [Step.ev (Ev.wr (val % 256) off)] }

/-- Assign field `f` of the controller: `g` is the assignment. -/
def log_assign (f : Field) (g : dw_hdmi_cec → dw_hdmi_cec) (l : Logged) : Logged :=
  { w := { l.w with cec := g l.w.cec }, log := l.log ++ [Step.upd f] }

/-- Lines 116-134, statement by statement. -/
def hardirq_tx_log (k : cec_tx_status) (stat : Nat) (l : Logged) : irqreturn_t × Logged :=
  if stat &&& CEC_STAT_ERROR_INIT ≠ 0 then
    if l.w.cec.retries ≠ 0 then
      let (v, l) := log_readb HDMI_CEC_CTRL l
      let l := log_writeb (v ||| CEC_CTRL_START) HDMI_CEC_CTRL l
      let l := log_assign Field.retries (fun c => { c with retries := c.retries - 1 }) l
      (irqreturn_t.IRQ_HANDLED, l)
    else
      let l := log_assign Field.tx_status
        (fun c => { c with tx_status := k.CEC_TX_STATUS_MAX_RETRIES }) l
      let l := log_assign Field.tx_done (fun c => { c with tx_done := true }) l
      (irqreturn_t.IRQ_WAKE_THREAD, l)
  else if stat &&& CEC_STAT_DONE ≠ 0 then
    let l := log_assign Field.tx_status (fun c => { c with tx_status := k.CEC_TX_STATUS_OK }) l
    let l := log_assign Field.tx_done (fun c => { c with tx_done := true }) l
    (irqreturn_t.IRQ_WAKE_THREAD, l)
  else if stat &&& CEC_STAT_NACK ≠ 0 then
    let l := log_assign Field.tx_status
      (fun c => { c with tx_status := k.CEC_TX_STATUS_NACK }) l
    let l := log_assign Field.tx_done (fun c => { c with tx_done := true }) l
    (irqreturn_t.IRQ_WAKE_THREAD, l)
  else
    (irqreturn_t.IRQ_HANDLED, l)

/-- The body of the loop of lines 144-146 for index `i`: read the data register,
assign `rx_msg.msg[i]`. -/
def rx_data_body_log (i : Nat) (l : Logged) : Logged :=
  let (b, l) := log_readb (HDMI_CEC_RX_DATA0 + i) l
  log_assign Field.rx_msg
    (fun c => { c with rx_msg := { c.rx_msg with msg := store c.rx_msg.msg i b } }) l

/-- The loop of lines 144-146 for `i` in `[0, n)`, statement by statement. -/
def rx_data_loop_log (n : Nat) (l : Logged) : Logged :=
  (List.range n).foldl (fun l i => rx_data_body_log i l) l

/-- Lines 136-155, statement by statement. -/
def hardirq_rx_log (stat : Nat) (ret : irqreturn_t) (l : Logged) : irqreturn_t × Logged :=
  if stat &&& CEC_STAT_EOM ≠ 0 then
    let (len, l) := log_readb HDMI_CEC_RX_CNT l
    let len := if len > CEC_MAX_MSG_SIZE then CEC_MAX_MSG_SIZE else len
    let l := rx_data_loop_log len l
    let l := log_writeb 0 HDMI_CEC_LOCK l
    let l := log_assign Field.rx_msg
      (fun c => { c with rx_msg := { c.rx_msg with len := len } }) l
    let l := log_assign Field.rx_done (fun c => { c with rx_done := true }) l
    (irqreturn_t.IRQ_WAKE_THREAD, l)
  else
    (ret, l)

/-- Lines 104-158, statement by statement, from an empty log. -/
def dw_hdmi_cec_hardirq_log (k : cec_tx_status) (w : World) : irqreturn_t × Logged :=
  let (stat, l) := log_readb HDMI_IH_CEC_STAT0 { w := w, log := [] }
  if stat = 0 then
    (irqreturn_t.IRQ_NONE, l)
  else
    let l := log_writeb stat HDMI_IH_CEC_STAT0 l
    let (ret, l) := hardirq_tx_log k stat l
    hardirq_rx_log stat ret l

/-- The accesses to the outside among the steps of a log, in order. -/
def events : List Step → List Ev
  | [] => []
  | Step.ev e :: t => e :: events t
  | Step.upd _ :: t => events t

/-- The fields assigned among the steps of a log, in order. -/
def updates : List Step → List Field
  | [] => []
  | Step.ev _ :: t => updates t
  | Step.upd f :: t => f :: updates t

/-- Shape of a step: 0 for a read, 1 for a write, 2 for a callback call, 3 for
an assignment. -/
def Step.shape : Step → Nat
  | Step.ev (Ev.rd _) => 0
  | Step.ev (Ev.wr _ _) => 1
  | Step.ev _ => 2
  | Step.upd _ => 3

/-! ## Basic facts -/

theorem writes_append (a b : List Ev) : writes (a ++ b) = writes a ++ writes b := by
  induction a with
  | nil => rfl
  | cons e t ih => cases e <;> simp [writes, ih]

theorem reads_append (a b : List Ev) : reads (a ++ b) = reads a ++ reads b := by
  induction a with
  | nil => rfl
  | cons e t ih => cases e <;> simp [reads, ih]

theorem completions_append (a b : List Ev) :
    completions (a ++ b) = completions a ++ completions b := by
  induction a with
  | nil => rfl
  | cons e t ih => cases e <;> simp [completions, ih]

theorem received_append (a b : List Ev) : received (a ++ b) = received a ++ received b := by
  induction a with
  | nil => rfl
  | cons e t ih => cases e <;> simp [received, ih]

theorem run_nil (k : cec_tx_status) (w : World) : run k [] w = w := rfl

theorem run_cons (k : cec_tx_status) (o : Op) (ops : List Op) (w : World) :
    run k (o :: ops) w = run k ops (step k o w) := rfl

theorem run_append (k : cec_tx_status) (a b : List Op) (w : World) :
    run k (a ++ b) w = run k b (run k a w) := by
  simp [run, List.foldl_append]

/-! ### Bit arithmetic -/

theorem BIT_eq (n : Nat) : BIT n = 2 ^ n := by
  simp [BIT, Nat.one_shiftLeft]

theorem BIT_lt {n m : Nat} (h : n < m) : BIT n < 2 ^ m := by
  rw [BIT_eq]; exact Nat.pow_lt_pow_right (by decide) h

theorem and_255 (x : Nat) : x &&& 255 = x % 256 := Nat.and_pow_two_sub_one_eq_mod x 8

theorem shr_8 (x : Nat) : x >>> 8 = x / 256 := Nat.shiftRight_eq_div_pow x 8

theorem testBit_or_bits (as : List Nat) (i : Nat) :
    (or_bits as).testBit i = decide (i ∈ as) := by
  induction as with
  | nil => simp [or_bits]
  | cons a t ih =>
    have : or_bits (a :: t) = BIT a ||| or_bits t := rfl
    rw [this, Nat.testBit_or, ih, BIT_eq, Nat.testBit_two_pow]
    by_cases h : a = i
    · simp [h]
    · have h2 : ¬ i = a := fun e => h e.symm
      simp [h, h2]

theorem or_bits_congr (as bs : List Nat) (h : ∀ a, a ∈ bs ↔ a ∈ as) :
    or_bits bs = or_bits as := by
  apply Nat.eq_of_testBit_eq
  intro i
  simp [testBit_or_bits, h]

/-! ### The address filter -/

theorem log_addr_ret (la : Nat) (w : World) : (dw_hdmi_cec_log_addr la w).1 = 0 := rfl

theorem log_addr_invalid (w : World) :
    (dw_hdmi_cec_log_addr CEC_LOG_ADDR_INVALID w).2.cec.addresses = 0 := by
  simp [dw_hdmi_cec_log_addr, CEC_LOG_ADDR_INVALID, writeb_relaxed]

theorem log_addr_claim (la : Nat) (w : World) (hla : la ≤ 15)
    (hw : w.cec.addresses < 2 ^ 16) :
    (dw_hdmi_cec_log_addr la w).2.cec.addresses = w.cec.addresses ||| (BIT la ||| BIT 15) ∧
    (dw_hdmi_cec_log_addr la w).2.cec.addresses < 2 ^ 16 := by
  have h1 : la % 256 = la := Nat.mod_eq_of_lt (by omega)
  have h2 : la ≠ CEC_LOG_ADDR_INVALID := by simp [CEC_LOG_ADDR_INVALID]; omega
  have h3 : w.cec.addresses ||| (BIT la ||| BIT 15) < 2 ^ 16 :=
    Nat.or_lt_two_pow hw (Nat.or_lt_two_pow (BIT_lt (by omega)) (BIT_lt (by omega)))
  have h4 : (w.cec.addresses ||| (BIT la ||| BIT 15)) % 2 ^ 32 =
      w.cec.addresses ||| (BIT la ||| BIT 15) :=
    Nat.mod_eq_of_lt (lt_trans h3 (by norm_num))
  simp only [dw_hdmi_cec_log_addr, writeb_relaxed, h1, h2, if_false, h4]
  exact ⟨trivial, h3⟩

theorem log_addr_seq_addresses (as : List Nat) :
    ∀ w : World, (∀ a ∈ as, a ≤ 14) → w.cec.addresses < 2 ^ 16 →
      (log_addr_seq as w).cec.addresses =
        w.cec.addresses ||| or_bits as ||| (if as = [] then 0 else BIT 15) := by
  induction as with
  | nil => intro w _ _; simp [log_addr_seq, or_bits]
  | cons a t ih =>
    intro w ha hw
    have hc := log_addr_claim a w (by have := ha a (by simp); omega) hw
    have hstep : log_addr_seq (a :: t) w = log_addr_seq t (dw_hdmi_cec_log_addr a w).2 := rfl
    rw [hstep, ih _ (fun b hb => ha b (by simp [hb])) hc.2, hc.1]
    have hor : or_bits (a :: t) = BIT a ||| or_bits t := rfl
    rw [hor]
    apply Nat.eq_of_testBit_eq
    intro i
    by_cases ht : t = [] <;>
      simp [ht, Nat.testBit_or, Bool.or_assoc, Bool.or_comm, Bool.or_left_comm]

/-! ### The copy loops -/

theorem rx_data_loop_succ (n : Nat) (w : World) :
    rx_data_loop (n + 1) w =
      { (rx_data_loop n w) with
        cec := { (rx_data_loop n w).cec with
          rx_msg := { (rx_data_loop n w).cec.rx_msg with
            msg := store (rx_data_loop n w).cec.rx_msg.msg n
              ((rx_data_loop n w).regs (HDMI_CEC_RX_DATA0 + n) % 256) } },
        trace := (rx_data_loop n w).trace ++ [Ev.rd (HDMI_CEC_RX_DATA0 + n)] } := by
  simp [rx_data_loop, List.range_succ, List.foldl_append, readb_relaxed]

/-- Closed form of the receive copy loop. -/
theorem rx_data_loop_eq (n : Nat) (w : World) :
    rx_data_loop n w =
      { cec := { w.cec with
          rx_msg := { w.cec.rx_msg with
            msg := fun i => if i < n then w.regs (HDMI_CEC_RX_DATA0 + i) % 256
                            else w.cec.rx_msg.msg i } },
        regs := w.regs,
        trace := w.trace ++ (List.range n).map (fun i => Ev.rd (HDMI_CEC_RX_DATA0 + i)) } := by
  induction n with
  | zero => simp [rx_data_loop]
  | succ n ih =>
    rw [rx_data_loop_succ, ih]
    simp only [List.range_succ, List.map_append, List.map_cons, List.map_nil, List.append_assoc]
    congr 3
    funext i
    simp only [store]
    by_cases h1 : i = n
    · simp [h1]
    · by_cases h2 : i < n
      · have : i < n + 1 := by omega
        simp [h1, h2, this]
      · have : ¬ i < n + 1 := by omega
        simp [h1, h2, this]

theorem tx_data_loop_succ (msg : cec_msg) (n : Nat) (w : World) :
    tx_data_loop msg (n + 1) w =
      writeb_relaxed (msg.msg n) (HDMI_CEC_TX_DATA0 + n) (tx_data_loop msg n w) := by
  simp [tx_data_loop, List.range_succ, List.foldl_append]

/-- Closed form of the transmit copy loop. -/
theorem tx_data_loop_eq (msg : cec_msg) (n : Nat) (w : World) :
    tx_data_loop msg n w =
      { cec := w.cec,
        regs := fun a => if HDMI_CEC_TX_DATA0 ≤ a ∧ a < HDMI_CEC_TX_DATA0 + n
                         then msg.msg (a - HDMI_CEC_TX_DATA0) % 256 else w.regs a,
        trace := w.trace ++
          (List.range n).map (fun i => Ev.wr (msg.msg i % 256) (HDMI_CEC_TX_DATA0 + i)) } := by
  induction n with
  | zero =>
    have h : ∀ a, ¬ (HDMI_CEC_TX_DATA0 ≤ a ∧ a < HDMI_CEC_TX_DATA0) := by
      intro a h; omega
    simp only [tx_data_loop, List.range_zero, List.foldl_nil, List.map_nil, List.append_nil,
      Nat.add_zero, h, if_false]
  | succ n ih =>
    rw [tx_data_loop_succ, ih]
    simp only [writeb_relaxed, List.range_succ, List.map_append, List.map_cons, List.map_nil,
      List.append_assoc]
    congr 1
    funext a
    simp only [store]
    by_cases h1 : a = HDMI_CEC_TX_DATA0 + n
    · simp [h1]
    · by_cases h2 : HDMI_CEC_TX_DATA0 ≤ a ∧ a < HDMI_CEC_TX_DATA0 + n
      · have : HDMI_CEC_TX_DATA0 ≤ a ∧ a < HDMI_CEC_TX_DATA0 + (n + 1) := ⟨h2.1, by omega⟩
        simp [h1, h2, this]
      · have : ¬ (HDMI_CEC_TX_DATA0 ≤ a ∧ a < HDMI_CEC_TX_DATA0 + (n + 1)) := by
          intro h; exact h2 ⟨h.1, by omega⟩
        simp [h1, h2, this]

/-! ### The interrupt handler -/

theorem ctrl_writes_append (a b : List Ev) :
    ctrl_writes (a ++ b) = ctrl_writes a ++ ctrl_writes b := by
  induction a with
  | nil => rfl
  | cons e t ih =>
    cases e <;> simp [ctrl_writes, ih]
    split <;> simp

theorem start_writes_append (a b : List Ev) :
    start_writes (a ++ b) = start_writes a ++ start_writes b := by
  simp [start_writes, ctrl_writes_append]

theorem completions_map_rd (f : Nat → Nat) (l : List Nat) :
    completions (l.map (fun i => Ev.rd (f i))) = [] := by
  induction l with
  | nil => rfl
  | cons a t ih => simpa [completions] using ih

theorem received_map_rd (f : Nat → Nat) (l : List Nat) :
    received (l.map (fun i => Ev.rd (f i))) = [] := by
  induction l with
  | nil => rfl
  | cons a t ih => simpa [received] using ih

theorem writes_map_rd (f : Nat → Nat) (l : List Nat) :
    writes (l.map (fun i => Ev.rd (f i))) = [] := by
  induction l with
  | nil => rfl
  | cons a t ih => simpa [writes] using ih

theorem ctrl_writes_map_rd (f : Nat → Nat) (l : List Nat) :
    ctrl_writes (l.map (fun i => Ev.rd (f i))) = [] := by
  induction l with
  | nil => rfl
  | cons a t ih => simpa [ctrl_writes] using ih

theorem reads_map_rd (f : Nat → Nat) (l : List Nat) :
    reads (l.map (fun i => Ev.rd (f i))) = l.map f := by
  induction l with
  | nil => rfl
  | cons a t ih => simpa [reads] using ih

theorem or_start_and_start (v : Nat) : (v % 256 ||| CEC_CTRL_START) % 256 &&& CEC_CTRL_START ≠ 0 := by
  have h0 : v % 256 ||| CEC_CTRL_START < 2 ^ 8 :=
    Nat.or_lt_two_pow (Nat.mod_lt _ (by norm_num)) (by decide)
  have h1 : v % 256 ||| CEC_CTRL_START < 256 := h0
  rw [Nat.mod_eq_of_lt h1]
  have h2 : ((v % 256 ||| CEC_CTRL_START) &&& CEC_CTRL_START).testBit 0 = true := by
    simp [Nat.testBit_and, Nat.testBit_or, CEC_CTRL_START, BIT]
  intro h
  rw [h] at h2
  simp at h2

theorem hardirq_unfold (k : cec_tx_status) (w : World) (h : irq_stat w ≠ 0) :
    dw_hdmi_cec_hardirq k w =
      hardirq_rx (irq_stat w) (hardirq_tx k (irq_stat w) (acked w)).1
        (hardirq_tx k (irq_stat w) (acked w)).2 := by
  simp only [irq_stat] at h
  simp [dw_hdmi_cec_hardirq, readb_relaxed, h, acked, irq_stat]

theorem acked_eq (w : World) :
    acked w = { w with regs := store w.regs HDMI_IH_CEC_STAT0 (irq_stat w),
                       trace := w.trace ++ [Ev.rd HDMI_IH_CEC_STAT0,
                         Ev.wr (irq_stat w) HDMI_IH_CEC_STAT0] } := by
  simp [acked, irq_stat, readb_relaxed, writeb_relaxed]

/-- The handler when the status register reads 0. -/
theorem hardirq_zero (k : cec_tx_status) (w : World) (h : irq_stat w = 0) :
    dw_hdmi_cec_hardirq k w =
      (irqreturn_t.IRQ_NONE, { w with trace := w.trace ++ [Ev.rd HDMI_IH_CEC_STAT0] }) := by
  simp only [irq_stat] at h
  simp [dw_hdmi_cec_hardirq, readb_relaxed, h]

/-- What the receive block leaves alone. -/
theorem hardirq_rx_frame (stat : Nat) (ret : irqreturn_t) (w : World) :
    (hardirq_rx stat ret w).2.cec.addresses = w.cec.addresses ∧
    (hardirq_rx stat ret w).2.cec.tx_status = w.cec.tx_status ∧
    (hardirq_rx stat ret w).2.cec.tx_done = w.cec.tx_done ∧
    (hardirq_rx stat ret w).2.cec.retries = w.cec.retries ∧
    completions (hardirq_rx stat ret w).2.trace = completions w.trace ∧
    received (hardirq_rx stat ret w).2.trace = received w.trace ∧
    ctrl_writes (hardirq_rx stat ret w).2.trace = ctrl_writes w.trace := by
  unfold hardirq_rx
  split
  · simp [readb_relaxed, writeb_relaxed, rx_data_loop_eq, completions_append, received_append,
      ctrl_writes_append, completions, received, ctrl_writes, completions_map_rd,
      received_map_rd, ctrl_writes_map_rd, HDMI_CEC_LOCK, HDMI_CEC_CTRL]
  · simp

/-- The receive block when the end-of-message bit is set. -/
theorem hardirq_rx_eom (stat : Nat) (ret : irqreturn_t) (w : World)
    (h : stat &&& CEC_STAT_EOM ≠ 0) :
    (hardirq_rx stat ret w).1 = irqreturn_t.IRQ_WAKE_THREAD ∧
    (hardirq_rx stat ret w).2.cec.rx_msg.len = min (w.regs HDMI_CEC_RX_CNT % 256) 16 ∧
    (hardirq_rx stat ret w).2.cec.rx_done = true ∧
    reads (hardirq_rx stat ret w).2.trace = reads w.trace ++ HDMI_CEC_RX_CNT ::
      (List.range (min (w.regs HDMI_CEC_RX_CNT % 256) 16)).map (fun i => HDMI_CEC_RX_DATA0 + i) := by
  have hmin : (if CEC_MAX_MSG_SIZE < w.regs HDMI_CEC_RX_CNT % 256 then CEC_MAX_MSG_SIZE
      else w.regs HDMI_CEC_RX_CNT % 256) = min (w.regs HDMI_CEC_RX_CNT % 256) 16 := by
    simp only [CEC_MAX_MSG_SIZE]; split <;> omega
  simp [hardirq_rx, h, readb_relaxed, writeb_relaxed, rx_data_loop_eq, reads_append, reads,
    reads_map_rd, hmin]

/-- The receive block when the end-of-message bit is clear. -/
theorem hardirq_rx_no_eom (stat : Nat) (ret : irqreturn_t) (w : World)
    (h : stat &&& CEC_STAT_EOM = 0) : hardirq_rx stat ret w = (ret, w) := by
  simp [hardirq_rx, h]

/-- What the transmit-outcome chain leaves alone. -/
theorem hardirq_tx_frame (k : cec_tx_status) (stat : Nat) (w : World) :
    (hardirq_tx k stat w).2.cec.addresses = w.cec.addresses ∧
    (hardirq_tx k stat w).2.cec.rx_msg = w.cec.rx_msg ∧
    (hardirq_tx k stat w).2.cec.rx_done = w.cec.rx_done ∧
    (hardirq_tx k stat w).2.regs HDMI_CEC_RX_CNT = w.regs HDMI_CEC_RX_CNT ∧
    completions (hardirq_tx k stat w).2.trace = completions w.trace ∧
    received (hardirq_tx k stat w).2.trace = received w.trace := by
  unfold hardirq_tx
  split_ifs <;>
    simp [readb_relaxed, writeb_relaxed, store, completions_append, received_append,
      completions, received, HDMI_CEC_RX_CNT, HDMI_CEC_CTRL]

/-- Init-error with retries left: start is re-asserted, one retry is used up. -/
theorem hardirq_tx_retry (k : cec_tx_status) (stat : Nat) (w : World)
    (hs : stat &&& CEC_STAT_ERROR_INIT ≠ 0) (hr : w.cec.retries ≠ 0) :
    (hardirq_tx k stat w).1 = irqreturn_t.IRQ_HANDLED ∧
    (hardirq_tx k stat w).2.cec = { w.cec with retries := w.cec.retries - 1 } ∧
    (hardirq_tx k stat w).2.trace = w.trace ++
      [Ev.rd HDMI_CEC_CTRL,
       Ev.wr ((w.regs HDMI_CEC_CTRL % 256 ||| CEC_CTRL_START) % 256) HDMI_CEC_CTRL] := by
  simp [hardirq_tx, hs, hr, readb_relaxed, writeb_relaxed]

/-- Init-error with no retries left: the transmit fails. -/
theorem hardirq_tx_max (k : cec_tx_status) (stat : Nat) (w : World)
    (hs : stat &&& CEC_STAT_ERROR_INIT ≠ 0) (hr : w.cec.retries = 0) :
    hardirq_tx k stat w = (irqreturn_t.IRQ_WAKE_THREAD,
      { w with cec := { w.cec with tx_status := k.CEC_TX_STATUS_MAX_RETRIES,
                                   tx_done := true } }) := by
  simp [hardirq_tx, hs, hr]

/-- Done without init-error: the transmit succeeded. -/
theorem hardirq_tx_done (k : cec_tx_status) (stat : Nat) (w : World)
    (hs : stat &&& CEC_STAT_ERROR_INIT = 0) (hd : stat &&& CEC_STAT_DONE ≠ 0) :
    hardirq_tx k stat w = (irqreturn_t.IRQ_WAKE_THREAD,
      { w with cec := { w.cec with tx_status := k.CEC_TX_STATUS_OK, tx_done := true } }) := by
  simp [hardirq_tx, hs, hd]

/-- Whenever the chain leaves `tx_done` set, either it was set before and the
status is untouched, or the status is one of the three outcomes. -/
theorem hardirq_tx_status (k : cec_tx_status) (stat : Nat) (w : World)
    (h : (hardirq_tx k stat w).2.cec.tx_done = true) :
    (w.cec.tx_done = true ∧ (hardirq_tx k stat w).2.cec.tx_status = w.cec.tx_status) ∨
    (hardirq_tx k stat w).2.cec.tx_status = k.CEC_TX_STATUS_OK ∨
    (hardirq_tx k stat w).2.cec.tx_status = k.CEC_TX_STATUS_NACK ∨
    (hardirq_tx k stat w).2.cec.tx_status = k.CEC_TX_STATUS_MAX_RETRIES := by
  unfold hardirq_tx at h ⊢
  split_ifs at h ⊢ <;> simp_all [readb_relaxed, writeb_relaxed]

/-! ### Frame conditions and runs -/

theorem completions_map_wr (f g : Nat → Nat) (l : List Nat) :
    completions (l.map (fun i => Ev.wr (f i) (g i))) = [] := by
  induction l with
  | nil => rfl
  | cons a t ih => simpa [completions] using ih

theorem received_map_wr (f g : Nat → Nat) (l : List Nat) :
    received (l.map (fun i => Ev.wr (f i) (g i))) = [] := by
  induction l with
  | nil => rfl
  | cons a t ih => simpa [received] using ih

/-- Induction along a run: a property that holds initially and is kept by
every allowed step holds at the end. -/
theorem run_induction (k : cec_tx_status) (P : World → Prop) (Q : Op → Prop)
    (hstep : ∀ (o : Op) (w : World), Q o → P w → P (step k o w)) :
    ∀ (ops : List Op) (w : World), (∀ o ∈ ops, Q o) → P w → P (run k ops w) := by
  intro ops
  induction ops with
  | nil => intro w _ h; exact h
  | cons o t ih =>
    intro w hq h
    rw [run_cons]
    exact ih _ (fun o2 h2 => hq o2 (by simp [h2])) (hstep o w (hq o (by simp)) h)

theorem log_addr_frame (la : Nat) (w : World) :
    (dw_hdmi_cec_log_addr la w).2.cec.rx_msg = w.cec.rx_msg ∧
    (dw_hdmi_cec_log_addr la w).2.cec.tx_status = w.cec.tx_status ∧
    (dw_hdmi_cec_log_addr la w).2.cec.tx_done = w.cec.tx_done ∧
    (dw_hdmi_cec_log_addr la w).2.cec.rx_done = w.cec.rx_done ∧
    (dw_hdmi_cec_log_addr la w).2.cec.retries = w.cec.retries ∧
    completions (dw_hdmi_cec_log_addr la w).2.trace = completions w.trace ∧
    received (dw_hdmi_cec_log_addr la w).2.trace = received w.trace := by
  simp [dw_hdmi_cec_log_addr, writeb_relaxed, completions_append, received_append,
    completions, received]

theorem transmit_frame (a t : Nat) (m : cec_msg) (w : World) :
    (dw_hdmi_cec_transmit a t m w).2.cec.addresses = w.cec.addresses ∧
    (dw_hdmi_cec_transmit a t m w).2.cec.rx_msg = w.cec.rx_msg ∧
    (dw_hdmi_cec_transmit a t m w).2.cec.tx_status = w.cec.tx_status ∧
    (dw_hdmi_cec_transmit a t m w).2.cec.tx_done = w.cec.tx_done ∧
    (dw_hdmi_cec_transmit a t m w).2.cec.rx_done = w.cec.rx_done ∧
    (dw_hdmi_cec_transmit a t m w).2.cec.retries = ((a % 256 : Nat) : Int) ∧
    completions (dw_hdmi_cec_transmit a t m w).2.trace = completions w.trace ∧
    received (dw_hdmi_cec_transmit a t m w).2.trace = received w.trace := by
  simp [dw_hdmi_cec_transmit, tx_data_loop_eq, writeb_relaxed, completions_append,
    received_append, completions, received, completions_map_wr, received_map_wr]

theorem enable_frame (b : Bool) (w : World) :
    (dw_hdmi_cec_enable b w).2.cec.addresses = (if b then 0 else w.cec.addresses) ∧
    (dw_hdmi_cec_enable b w).2.cec.rx_msg = w.cec.rx_msg ∧
    (dw_hdmi_cec_enable b w).2.cec.tx_status = w.cec.tx_status ∧
    (dw_hdmi_cec_enable b w).2.cec.tx_done = w.cec.tx_done ∧
    (dw_hdmi_cec_enable b w).2.cec.rx_done = w.cec.rx_done ∧
    (dw_hdmi_cec_enable b w).2.cec.retries = w.cec.retries ∧
    completions (dw_hdmi_cec_enable b w).2.trace = completions w.trace ∧
    received (dw_hdmi_cec_enable b w).2.trace = received w.trace := by
  cases b <;>
    simp [dw_hdmi_cec_enable, dw_hdmi_cec_log_addr, writeb_relaxed, completions_append,
      received_append, completions, received, CEC_LOG_ADDR_INVALID]

/-- What the handler leaves alone, whatever the status. -/
theorem hardirq_frame (k : cec_tx_status) (w : World) :
    (dw_hdmi_cec_hardirq k w).2.cec.addresses = w.cec.addresses ∧
    completions (dw_hdmi_cec_hardirq k w).2.trace = completions w.trace ∧
    received (dw_hdmi_cec_hardirq k w).2.trace = received w.trace := by
  by_cases h : irq_stat w = 0
  · simp [hardirq_zero k w h, completions_append, received_append, completions, received]
  · rw [hardirq_unfold k w h]
    obtain ⟨r1, -, -, -, r5, r6, -⟩ := hardirq_rx_frame (irq_stat w)
      (hardirq_tx k (irq_stat w) (acked w)).1 (hardirq_tx k (irq_stat w) (acked w)).2
    obtain ⟨t1, -, -, -, t5, t6⟩ := hardirq_tx_frame k (irq_stat w) (acked w)
    rw [r1, r5, r6, t1, t5, t6]
    simp [acked_eq, completions_append, received_append, completions, received]

/-! ### Invariants -/

/-- Closed form of the threaded handler. -/
theorem thread_eq (w : World) :
    dw_hdmi_cec_thread w = (irqreturn_t.IRQ_HANDLED,
      { cec := { w.cec with tx_done := false, rx_done := false },
        regs := w.regs,
        trace := w.trace
          ++ (if w.cec.tx_done then [Ev.transmit_done w.cec.tx_status 0 0 0 0] else [])
          ++ (if w.cec.rx_done then [Ev.received_msg w.cec.rx_msg] else []) }) := by
  obtain ⟨⟨a, m, ts, td, rd, r⟩, regs, tr⟩ := w
  cases td <;> cases rd <;> simp [dw_hdmi_cec_thread]

theorem addr_inv_zero : addr_inv 0 := by
  refine ⟨by norm_num, ?_⟩
  simp

theorem addr_inv_claim (a la : Nat) (h : a < 2 ^ 16) (hla : la ≤ 14) :
    addr_inv (a ||| (BIT la ||| BIT 15)) := by
  refine ⟨Nat.or_lt_two_pow h (Nat.or_lt_two_pow (BIT_lt (by omega)) (BIT_lt (by omega))), ?_⟩
  have hb : (BIT 15).testBit 15 = true := by decide
  have h15 : (a ||| (BIT la ||| BIT 15)).testBit 15 = true := by
    simp [Nat.testBit_or, hb]
  have hl : (a ||| (BIT la ||| BIT 15)).testBit la = true := by
    simp [Nat.testBit_or, BIT_eq]
  exact ⟨fun _ => ⟨la, by omega, hl⟩, fun _ => h15⟩

theorem step_addr_inv (k : cec_tx_status) (o : Op) (w : World) (ho : o.addr_ok)
    (h : addr_inv w.cec.addresses) : addr_inv (step k o w).cec.addresses := by
  cases o with
  | log_addr la =>
    rcases ho with h1 | h1
    · have hc := log_addr_claim la w (by omega) h.1
      simp only [step]
      rw [hc.1]
      exact addr_inv_claim _ _ h.1 h1
    · simp only [step]
      rw [h1, log_addr_invalid]
      exact addr_inv_zero
  | transmit a t m => simp only [step]; rw [(transmit_frame a t m w).1]; exact h
  | enable b =>
    simp only [step]; rw [(enable_frame b w).1]
    cases b
    · simpa using h
    · simpa using addr_inv_zero
  | hardirq => simp only [step]; rw [(hardirq_frame k w).1]; exact h
  | thread => simp only [step, thread_eq]; exact h
  | hw f => exact h

theorem hardirq_tx_inv (k : cec_tx_status) (w : World)
    (h : w.cec.tx_done = true →
      w.cec.tx_status = k.CEC_TX_STATUS_OK ∨ w.cec.tx_status = k.CEC_TX_STATUS_NACK ∨
      w.cec.tx_status = k.CEC_TX_STATUS_MAX_RETRIES) :
    (dw_hdmi_cec_hardirq k w).2.cec.tx_done = true →
      (dw_hdmi_cec_hardirq k w).2.cec.tx_status = k.CEC_TX_STATUS_OK ∨
      (dw_hdmi_cec_hardirq k w).2.cec.tx_status = k.CEC_TX_STATUS_NACK ∨
      (dw_hdmi_cec_hardirq k w).2.cec.tx_status = k.CEC_TX_STATUS_MAX_RETRIES := by
  by_cases hz : irq_stat w = 0
  · simpa [hardirq_zero k w hz] using h
  · rw [hardirq_unfold k w hz]
    obtain ⟨-, r2, r3, -, -, -, -⟩ := hardirq_rx_frame (irq_stat w)
      (hardirq_tx k (irq_stat w) (acked w)).1 (hardirq_tx k (irq_stat w) (acked w)).2
    rw [r2, r3]
    intro hd
    rcases hardirq_tx_status k (irq_stat w) (acked w) hd with ⟨h1, h2⟩ | h3
    · rw [h2]
      have : (acked w).cec = w.cec := by simp [acked_eq]
      rw [this] at h1 ⊢
      exact h h1
    · exact h3

theorem step_tx_inv (k : cec_tx_status) (o : Op) (w : World) (_ho : True)
    (h : tx_inv k w) : tx_inv k (step k o w) := by
  obtain ⟨h1, h2⟩ := h
  cases o with
  | log_addr la =>
    obtain ⟨-, f2, f3, -, -, f6, -⟩ := log_addr_frame la w
    simp only [step, tx_inv]; rw [f2, f3, f6]; exact ⟨h1, h2⟩
  | transmit a t m =>
    obtain ⟨-, -, f2, f3, -, -, f6, -⟩ := transmit_frame a t m w
    simp only [step, tx_inv]; rw [f2, f3, f6]; exact ⟨h1, h2⟩
  | enable b =>
    obtain ⟨-, -, f2, f3, -, -, f6, -⟩ := enable_frame b w
    simp only [step, tx_inv]; rw [f2, f3, f6]; exact ⟨h1, h2⟩
  | hardirq =>
    simp only [step, tx_inv]
    rw [(hardirq_frame k w).2.1]
    exact ⟨hardirq_tx_inv k w h1, h2⟩
  | thread =>
    simp only [step, tx_inv, thread_eq]
    refine ⟨by simp, ?_⟩
    intro c hc
    simp only [completions_append, List.mem_append] at hc
    rcases hc with (hc | hc) | hc
    · exact h2 c hc
    · cases hd : w.cec.tx_done
      · simp [hd, completions] at hc
      · simp [hd, completions] at hc
        subst hc
        exact ⟨h1 hd, rfl⟩
    · cases hd : w.cec.rx_done <;> simp [hd, completions] at hc
  | hw f => exact ⟨h1, h2⟩

/-! ### Steps of a transmit scenario -/

theorem and_ne_zero_ne_zero {s b : Nat} (h : s &&& b ≠ 0) : s ≠ 0 := by
  intro h0; rw [h0] at h; simp at h

theorem irq_stat_raise (k : cec_tx_status) (s : Nat) (f : (Nat → Nat) → (Nat → Nat))
    (w : World) (hs : s < 256) : irq_stat (step k (raise s f) w) = s := by
  simp [irq_stat, step, raise, store, Nat.mod_eq_of_lt hs]

theorem step_raise_frame (k : cec_tx_status) (s : Nat) (f : (Nat → Nat) → (Nat → Nat))
    (w : World) :
    (step k (raise s f) w).cec = w.cec ∧ (step k (raise s f) w).trace = w.trace := by
  simp [step, raise]

theorem run_irq (k : cec_tx_status) (s : Nat) (f : (Nat → Nat) → (Nat → Nat)) (w : World) :
    run k (irq s f) w = (dw_hdmi_cec_hardirq k (step k (raise s f) w)).2 := rfl

theorem hardirq_rx_wake (stat : Nat) (w : World) :
    (hardirq_rx stat irqreturn_t.IRQ_WAKE_THREAD w).1 = irqreturn_t.IRQ_WAKE_THREAD := by
  unfold hardirq_rx
  split <;> rfl

/-- The handler on an init-error while retries are left. -/
theorem hardirq_retry (k : cec_tx_status) (w : World)
    (hs : irq_stat w &&& CEC_STAT_ERROR_INIT ≠ 0) (hr : w.cec.retries ≠ 0) :
    (dw_hdmi_cec_hardirq k w).2.cec.retries = w.cec.retries - 1 ∧
    (dw_hdmi_cec_hardirq k w).2.cec.tx_done = w.cec.tx_done ∧
    (dw_hdmi_cec_hardirq k w).2.cec.tx_status = w.cec.tx_status ∧
    ctrl_writes (dw_hdmi_cec_hardirq k w).2.trace = ctrl_writes w.trace ++
      [(w.regs HDMI_CEC_CTRL % 256 ||| CEC_CTRL_START) % 256] := by
  have hc : (acked w).cec = w.cec := by simp [acked_eq]
  have hr2 : (acked w).cec.retries ≠ 0 := by rw [hc]; exact hr
  rw [hardirq_unfold k w (and_ne_zero_ne_zero hs)]
  obtain ⟨-, r2, r3, r4, -, -, r7⟩ := hardirq_rx_frame (irq_stat w)
    (hardirq_tx k (irq_stat w) (acked w)).1 (hardirq_tx k (irq_stat w) (acked w)).2
  obtain ⟨-, t2, t3⟩ := hardirq_tx_retry k (irq_stat w) (acked w) hs hr2
  rw [r2, r3, r4, r7, t2, t3, hc]
  simp [acked_eq, ctrl_writes_append, ctrl_writes, store, HDMI_CEC_CTRL, HDMI_IH_CEC_STAT0]

/-- The handler on an init-error when no retries are left. -/
theorem hardirq_max (k : cec_tx_status) (w : World)
    (hs : irq_stat w &&& CEC_STAT_ERROR_INIT ≠ 0) (hr : w.cec.retries = 0) :
    (dw_hdmi_cec_hardirq k w).1 = irqreturn_t.IRQ_WAKE_THREAD ∧
    (dw_hdmi_cec_hardirq k w).2.cec.retries = 0 ∧
    (dw_hdmi_cec_hardirq k w).2.cec.tx_done = true ∧
    (dw_hdmi_cec_hardirq k w).2.cec.tx_status = k.CEC_TX_STATUS_MAX_RETRIES ∧
    ctrl_writes (dw_hdmi_cec_hardirq k w).2.trace = ctrl_writes w.trace := by
  have hc : (acked w).cec = w.cec := by simp [acked_eq]
  have hr2 : (acked w).cec.retries = 0 := by rw [hc]; exact hr
  rw [hardirq_unfold k w (and_ne_zero_ne_zero hs)]
  obtain ⟨-, r2, r3, r4, -, -, r7⟩ := hardirq_rx_frame (irq_stat w)
    (hardirq_tx k (irq_stat w) (acked w)).1 (hardirq_tx k (irq_stat w) (acked w)).2
  rw [r2, r3, r4, r7, hardirq_tx_max k (irq_stat w) (acked w) hs hr2]
  refine ⟨hardirq_rx_wake _ _, ?_, rfl, rfl, ?_⟩
  · simpa [hc] using hr
  · simp [acked_eq, ctrl_writes_append, ctrl_writes, HDMI_CEC_CTRL, HDMI_IH_CEC_STAT0]

/-- The handler on done without init-error. -/
theorem hardirq_done (k : cec_tx_status) (w : World)
    (hs : irq_stat w &&& CEC_STAT_ERROR_INIT = 0) (hd : irq_stat w &&& CEC_STAT_DONE ≠ 0) :
    (dw_hdmi_cec_hardirq k w).1 = irqreturn_t.IRQ_WAKE_THREAD ∧
    (dw_hdmi_cec_hardirq k w).2.cec.retries = w.cec.retries ∧
    (dw_hdmi_cec_hardirq k w).2.cec.tx_done = true ∧
    (dw_hdmi_cec_hardirq k w).2.cec.tx_status = k.CEC_TX_STATUS_OK ∧
    ctrl_writes (dw_hdmi_cec_hardirq k w).2.trace = ctrl_writes w.trace := by
  have hc : (acked w).cec = w.cec := by simp [acked_eq]
  rw [hardirq_unfold k w (and_ne_zero_ne_zero hd)]
  obtain ⟨-, r2, r3, r4, -, -, r7⟩ := hardirq_rx_frame (irq_stat w)
    (hardirq_tx k (irq_stat w) (acked w)).1 (hardirq_tx k (irq_stat w) (acked w)).2
  rw [r2, r3, r4, r7, hardirq_tx_done k (irq_stat w) (acked w) hs hd]
  refine ⟨hardirq_rx_wake _ _, ?_, rfl, rfl, ?_⟩
  · simp [hc]
  · simp [acked_eq, ctrl_writes_append, ctrl_writes, HDMI_CEC_CTRL, HDMI_IH_CEC_STAT0]

/-- Effect of one run of the threaded handler on the transmit side. -/
theorem step_thread (k : cec_tx_status) (w : World) :
    (step k Op.thread w).cec.tx_done = false ∧
    (step k Op.thread w).cec.retries = w.cec.retries ∧
    (step k Op.thread w).cec.tx_status = w.cec.tx_status ∧
    completions (step k Op.thread w).trace = completions w.trace ++
      (if w.cec.tx_done then [(w.cec.tx_status, 0, 0, 0, 0)] else []) ∧
    ctrl_writes (step k Op.thread w).trace = ctrl_writes w.trace := by
  simp only [step, thread_eq]
  cases w.cec.tx_done <;> cases w.cec.rx_done <;>
    simp [completions_append, completions, ctrl_writes_append, ctrl_writes]

/-- Runs of the threaded handler: at most the first one delivers a completion. -/
theorem run_threads (k : cec_tx_status) (n : Nat) :
    ∀ w : World,
      (run k (threads n) w).cec.retries = w.cec.retries ∧
      (run k (threads n) w).cec.tx_status = w.cec.tx_status ∧
      (run k (threads n) w).cec.tx_done = (if n = 0 then w.cec.tx_done else false) ∧
      completions (run k (threads n) w).trace = completions w.trace ++
        (if w.cec.tx_done = true ∧ n ≠ 0 then [(w.cec.tx_status, 0, 0, 0, 0)] else []) ∧
      ctrl_writes (run k (threads n) w).trace = ctrl_writes w.trace := by
  induction n with
  | zero => intro w; simp [threads, run_nil]
  | succ n ih =>
    intro w
    have hrun : run k (threads (n + 1)) w = run k (threads n) (step k Op.thread w) := rfl
    obtain ⟨s1, s2, s3, s4, s5⟩ := step_thread k w
    obtain ⟨i1, i2, i3, i4, i5⟩ := ih (step k Op.thread w)
    rw [hrun, i1, i2, i3, i4, i5, s1, s2, s3, s4, s5]
    cases w.cec.tx_done <;> simp

theorem rounds_cons (k : cec_tx_status) (t s : Nat) (f : (Nat → Nat) → (Nat → Nat))
    (xs : List (Nat × Nat × ((Nat → Nat) → (Nat → Nat)))) (w : World) :
    run k (rounds ((t, s, f) :: xs)) w =
      run k (rounds xs) (run k (irq s f) (run k (threads t) w)) := by
  simp [rounds, run_append]

/-- One round on an init-error while retries are left: one retry, nothing else
on the transmit side. -/
theorem round_retry (k : cec_tx_status) (t s : Nat) (f : (Nat → Nat) → (Nat → Nat))
    (w : World) (hs : s < 256) (he : s &&& CEC_STAT_ERROR_INIT ≠ 0)
    (hr : w.cec.retries ≠ 0) :
    (run k (irq s f) (run k (threads t) w)).cec.retries = w.cec.retries - 1 ∧
    (w.cec.tx_done = false →
      (run k (irq s f) (run k (threads t) w)).cec.tx_done = false ∧
      completions (run k (irq s f) (run k (threads t) w)).trace = completions w.trace) ∧
    (∃ v, v &&& CEC_CTRL_START ≠ 0 ∧
      ctrl_writes (run k (irq s f) (run k (threads t) w)).trace = ctrl_writes w.trace ++ [v]) := by
  obtain ⟨a1, -, a3, a4, a5⟩ := run_threads k t w
  obtain ⟨b1, b2⟩ := step_raise_frame k s f (run k (threads t) w)
  have hst := irq_stat_raise k s f (run k (threads t) w) hs
  have he2 : irq_stat (step k (raise s f) (run k (threads t) w)) &&& CEC_STAT_ERROR_INIT ≠ 0 := by
    rw [hst]; exact he
  have hr2 : (step k (raise s f) (run k (threads t) w)).cec.retries ≠ 0 := by
    rw [b1, a1]; exact hr
  obtain ⟨c1, c2, -, c4⟩ := hardirq_retry k _ he2 hr2
  have c5 := (hardirq_frame k (step k (raise s f) (run k (threads t) w))).2.1
  rw [run_irq]
  refine ⟨by rw [c1, b1, a1], ?_, ⟨_, or_start_and_start _, by rw [c4, b2, a5]⟩⟩
  intro hd
  rw [c2, c5, b1, b2, a3, a4, hd]
  simp

theorem start_writes_snoc (tr : List Nat) (v : Nat) (hv : v &&& CEC_CTRL_START ≠ 0) :
    (tr ++ [v]).filter (fun v => v &&& CEC_CTRL_START ≠ 0) =
      tr.filter (fun v => v &&& CEC_CTRL_START ≠ 0) ++ [v] := by
  simp [List.filter_append, hv]

/-- A run of init-error rounds, no more of them than retries are left. -/
theorem run_rounds (k : cec_tx_status) (xs : List (Nat × Nat × ((Nat → Nat) → (Nat → Nat)))) :
    ∀ w : World, ((xs.length : Nat) : Int) ≤ w.cec.retries →
      (∀ x ∈ xs, x.2.1 < 256 ∧ x.2.1 &&& CEC_STAT_ERROR_INIT ≠ 0) →
      (run k (rounds xs) w).cec.retries = w.cec.retries - ((xs.length : Nat) : Int) ∧
      (w.cec.tx_done = false →
        (run k (rounds xs) w).cec.tx_done = false ∧
        completions (run k (rounds xs) w).trace = completions w.trace) ∧
      (ctrl_writes (run k (rounds xs) w).trace).length =
        (ctrl_writes w.trace).length + xs.length ∧
      (start_writes (run k (rounds xs) w).trace).length =
        (start_writes w.trace).length + xs.length := by
  induction xs with
  | nil => intro w _ _; simp [rounds, run_nil]
  | cons x xs ih =>
    obtain ⟨t, s, f⟩ := x
    intro w hlen herr
    have hx := herr (t, s, f) (by simp)
    have hr : w.cec.retries ≠ 0 := by
      simp only [List.length_cons] at hlen
      omega
    obtain ⟨r1, r2, v, hv, r3⟩ := round_retry k t s f w hx.1 hx.2 hr
    have hlen2 : ((xs.length : Nat) : Int) ≤
        (run k (irq s f) (run k (threads t) w)).cec.retries := by
      rw [r1]
      simp only [List.length_cons] at hlen
      omega
    obtain ⟨i1, i2, i3, i4⟩ := ih (run k (irq s f) (run k (threads t) w)) hlen2
      (fun y hy => herr y (by simp [hy]))
    rw [rounds_cons]
    refine ⟨?_, ?_, ?_, ?_⟩
    · rw [i1, r1]; simp only [List.length_cons]; omega
    · intro hd
      obtain ⟨d1, d2⟩ := r2 hd
      obtain ⟨e1, e2⟩ := i2 d1
      exact ⟨e1, by rw [e2, d2]⟩
    · rw [i3, r3]; simp only [List.length_append, List.length_cons, List.length_nil]; omega
    · rw [i4]
      simp only [start_writes] at *
      rw [r3, start_writes_snoc _ v hv]
      simp only [List.length_append, List.length_cons, List.length_nil]; omega

theorem irqs_eq_rounds (xs : List (Nat × ((Nat → Nat) → (Nat → Nat)))) :
    irqs xs = rounds (xs.map (fun x => (0, x.1, x.2))) := by
  induction xs with
  | nil => rfl
  | cons x xs ih =>
    obtain ⟨s, f⟩ := x
    simp [irqs, rounds, threads, ih]

theorem start_writes_congr {a b : List Ev} (h : ctrl_writes a = ctrl_writes b) :
    start_writes a = start_writes b := by
  simp [start_writes, h]

/-! ### Reception -/

theorem rx_data_reads_append (a b : List Ev) :
    rx_data_reads (a ++ b) = rx_data_reads a ++ rx_data_reads b := by
  induction a with
  | nil => rfl
  | cons e t ih =>
    cases e <;> simp [rx_data_reads, ih]
    split <;> simp

theorem rx_data_reads_map (l : List Nat) (h : ∀ i ∈ l, i < CEC_MAX_MSG_SIZE) :
    rx_data_reads (l.map (fun i => Ev.rd (HDMI_CEC_RX_DATA0 + i))) =
      l.map (fun i => HDMI_CEC_RX_DATA0 + i) := by
  induction l with
  | nil => rfl
  | cons a t ih =>
    have ha := h a (by simp)
    simp [rx_data_reads, ha, ih (fun i hi => h i (by simp [hi]))]

theorem hardirq_tx_rx_data_reads (k : cec_tx_status) (stat : Nat) (w : World) :
    rx_data_reads (hardirq_tx k stat w).2.trace = rx_data_reads w.trace := by
  unfold hardirq_tx
  split_ifs <;>
    simp [readb_relaxed, writeb_relaxed, rx_data_reads_append, rx_data_reads, HDMI_CEC_CTRL,
      HDMI_CEC_RX_DATA0]

theorem min_16_eq (l : Nat) :
    (if CEC_MAX_MSG_SIZE < l then CEC_MAX_MSG_SIZE else l) = min l 16 := by
  simp only [CEC_MAX_MSG_SIZE]; split <;> omega

theorem hardirq_rx_eom_reads (stat : Nat) (ret : irqreturn_t) (w : World)
    (h : stat &&& CEC_STAT_EOM ≠ 0) :
    rx_data_reads (hardirq_rx stat ret w).2.trace = rx_data_reads w.trace ++
      (List.range (min (w.regs HDMI_CEC_RX_CNT % 256) 16)).map
        (fun i => HDMI_CEC_RX_DATA0 + i) := by
  have hm : ∀ i ∈ List.range (min (w.regs HDMI_CEC_RX_CNT % 256) 16), i < CEC_MAX_MSG_SIZE := by
    intro i hi
    have := List.mem_range.1 hi
    simp only [CEC_MAX_MSG_SIZE]; omega
  simp only [hardirq_rx, h, ne_eq, not_false_eq_true, if_true, readb_relaxed, writeb_relaxed,
    rx_data_loop_eq, gt_iff_lt, min_16_eq, rx_data_reads_append, rx_data_reads_map _ hm]
  simp [rx_data_reads, HDMI_CEC_RX_CNT, HDMI_CEC_RX_DATA0, HDMI_CEC_LOCK]

/-- The handler when the status has the end-of-message bit. -/
theorem hardirq_eom (k : cec_tx_status) (w : World)
    (h : irq_stat w &&& CEC_STAT_EOM ≠ 0) :
    (dw_hdmi_cec_hardirq k w).1 = irqreturn_t.IRQ_WAKE_THREAD ∧
    (dw_hdmi_cec_hardirq k w).2.cec.rx_msg.len = min (w.regs HDMI_CEC_RX_CNT % 256) 16 ∧
    (dw_hdmi_cec_hardirq k w).2.cec.rx_done = true ∧
    rx_data_reads (dw_hdmi_cec_hardirq k w).2.trace = rx_data_reads w.trace ++
      (List.range (min (w.regs HDMI_CEC_RX_CNT % 256) 16)).map
        (fun i => HDMI_CEC_RX_DATA0 + i) := by
  rw [hardirq_unfold k w (and_ne_zero_ne_zero h)]
  obtain ⟨e1, e2, e3, -⟩ := hardirq_rx_eom (irq_stat w)
    (hardirq_tx k (irq_stat w) (acked w)).1 (hardirq_tx k (irq_stat w) (acked w)).2 h
  have e4 := hardirq_rx_eom_reads (irq_stat w)
    (hardirq_tx k (irq_stat w) (acked w)).1 (hardirq_tx k (irq_stat w) (acked w)).2 h
  have hreg : (hardirq_tx k (irq_stat w) (acked w)).2.regs HDMI_CEC_RX_CNT =
      w.regs HDMI_CEC_RX_CNT := by
    rw [(hardirq_tx_frame k (irq_stat w) (acked w)).2.2.2.1]
    simp [acked_eq, store, HDMI_CEC_RX_CNT, HDMI_IH_CEC_STAT0]
  rw [hreg] at e2 e4
  refine ⟨e1, e2, e3, ?_⟩
  rw [e4, hardirq_tx_rx_data_reads]
  simp [acked_eq, rx_data_reads_append, rx_data_reads, HDMI_IH_CEC_STAT0, HDMI_CEC_RX_DATA0]

/-- The stored length after the handler, whatever the status. -/
theorem hardirq_rx_len (k : cec_tx_status) (w : World) :
    (dw_hdmi_cec_hardirq k w).2.cec.rx_msg.len =
      (if irq_stat w &&& CEC_STAT_EOM ≠ 0 then min (w.regs HDMI_CEC_RX_CNT % 256) 16
       else w.cec.rx_msg.len) := by
  by_cases h : irq_stat w &&& CEC_STAT_EOM ≠ 0
  · rw [if_pos h]; exact (hardirq_eom k w h).2.1
  · rw [if_neg h]
    by_cases hz : irq_stat w = 0
    · simp [hardirq_zero k w hz]
    · rw [hardirq_unfold k w hz, hardirq_rx_no_eom _ _ _ (by simpa using h),
        (hardirq_tx_frame k (irq_stat w) (acked w)).2.1]
      simp [acked_eq]

theorem step_rx_inv (k : cec_tx_status) (o : Op) (w : World) (_ho : True)
    (h : rx_inv w) : rx_inv (step k o w) := by
  obtain ⟨h1, h2⟩ := h
  cases o with
  | log_addr la =>
    obtain ⟨f1, -, -, -, -, -, f7⟩ := log_addr_frame la w
    simp only [step, rx_inv]; rw [f1, f7]; exact ⟨h1, h2⟩
  | transmit a t m =>
    obtain ⟨-, f1, -, -, -, -, -, f7⟩ := transmit_frame a t m w
    simp only [step, rx_inv]; rw [f1, f7]; exact ⟨h1, h2⟩
  | enable b =>
    obtain ⟨-, f1, -, -, -, -, -, f7⟩ := enable_frame b w
    simp only [step, rx_inv]; rw [f1, f7]; exact ⟨h1, h2⟩
  | hardirq =>
    simp only [step, rx_inv]
    rw [(hardirq_frame k w).2.2, hardirq_rx_len]
    refine ⟨?_, h2⟩
    split
    · simp only [CEC_MAX_MSG_SIZE]; omega
    · exact h1
  | thread =>
    simp only [step, rx_inv, thread_eq]
    refine ⟨h1, ?_⟩
    intro m hm
    simp only [received_append, List.mem_append] at hm
    rcases hm with (hm | hm) | hm
    · exact h2 m hm
    · cases hd : w.cec.tx_done <;> simp [hd, received] at hm
    · cases hd : w.cec.rx_done
      · simp [hd, received] at hm
      · simp [hd, received] at hm
        subst hm
        exact h1
  | hw f => exact ⟨h1, h2⟩

/-! ### Transmission -/

/-- Closed form of `dw_hdmi_cec_transmit`. -/
theorem transmit_eq (a t : Nat) (m : cec_msg) (w : World) :
    dw_hdmi_cec_transmit a t m w = (0,
      { cec := { w.cec with retries := ((a % 256 : Nat) : Int) },
        regs := store (store (fun r => if HDMI_CEC_TX_DATA0 ≤ r ∧ r < HDMI_CEC_TX_DATA0 + m.len
                         then m.msg (r - HDMI_CEC_TX_DATA0) % 256 else w.regs r)
                  HDMI_CEC_TX_CNT (m.len % 256)) HDMI_CEC_CTRL 3,
        trace := w.trace ++
          (List.range m.len).map (fun i => Ev.wr (m.msg i % 256) (HDMI_CEC_TX_DATA0 + i)) ++
          [Ev.wr (m.len % 256) HDMI_CEC_TX_CNT, Ev.wr 3 HDMI_CEC_CTRL] }) := by
  simp [dw_hdmi_cec_transmit, tx_data_loop_eq, writeb_relaxed, CEC_CTRL_NORMAL, CEC_CTRL_START,
    BIT]

/-! ### The handler, case by case -/

/-- Closed form of the receive block when the end-of-message bit is set. -/
theorem hardirq_rx_eom_eq (stat : Nat) (ret : irqreturn_t) (w : World)
    (h : stat &&& CEC_STAT_EOM ≠ 0) :
    hardirq_rx stat ret w = (irqreturn_t.IRQ_WAKE_THREAD,
      { cec := { w.cec with
          rx_msg := { len := min (w.regs HDMI_CEC_RX_CNT % 256) 16,
                      msg := fun i => if i < min (w.regs HDMI_CEC_RX_CNT % 256) 16
                        then w.regs (HDMI_CEC_RX_DATA0 + i) % 256 else w.cec.rx_msg.msg i },
          rx_done := true },
        regs := store w.regs HDMI_CEC_LOCK 0,
        trace := w.trace ++ Ev.rd HDMI_CEC_RX_CNT ::
          ((List.range (min (w.regs HDMI_CEC_RX_CNT % 256) 16)).map
            (fun i => Ev.rd (HDMI_CEC_RX_DATA0 + i)) ++ [Ev.wr 0 HDMI_CEC_LOCK]) }) := by
  simp [hardirq_rx, h, readb_relaxed, writeb_relaxed, rx_data_loop_eq, min_16_eq]

/-- Closed form of the transmit-outcome chain on a retry. -/
theorem hardirq_tx_retry_eq (k : cec_tx_status) (stat : Nat) (w : World)
    (hs : stat &&& CEC_STAT_ERROR_INIT ≠ 0) (hr : w.cec.retries ≠ 0) :
    hardirq_tx k stat w = (irqreturn_t.IRQ_HANDLED,
      { cec := { w.cec with retries := w.cec.retries - 1 },
        regs := store w.regs HDMI_CEC_CTRL ((w.regs HDMI_CEC_CTRL % 256 ||| CEC_CTRL_START) % 256),
        trace := w.trace ++ [Ev.rd HDMI_CEC_CTRL,
          Ev.wr ((w.regs HDMI_CEC_CTRL % 256 ||| CEC_CTRL_START) % 256) HDMI_CEC_CTRL] }) := by
  simp [hardirq_tx, hs, hr, readb_relaxed, writeb_relaxed]

/-- NACK without init-error and done: the transmit was not acknowledged. -/
theorem hardirq_tx_nack (k : cec_tx_status) (stat : Nat) (w : World)
    (hs : stat &&& CEC_STAT_ERROR_INIT = 0) (hd : stat &&& CEC_STAT_DONE = 0)
    (hn : stat &&& CEC_STAT_NACK ≠ 0) :
    hardirq_tx k stat w = (irqreturn_t.IRQ_WAKE_THREAD,
      { w with cec := { w.cec with tx_status := k.CEC_TX_STATUS_NACK, tx_done := true } }) := by
  simp [hardirq_tx, hs, hd, hn]

/-- None of init-error, done, NACK: the chain does nothing. -/
theorem hardirq_tx_idle (k : cec_tx_status) (stat : Nat) (w : World)
    (hs : stat &&& CEC_STAT_ERROR_INIT = 0) (hd : stat &&& CEC_STAT_DONE = 0)
    (hn : stat &&& CEC_STAT_NACK = 0) :
    hardirq_tx k stat w = (irqreturn_t.IRQ_HANDLED, w) := by
  simp [hardirq_tx, hs, hd, hn]

/-- The chain touches no register but the control register. -/
theorem hardirq_tx_regs (k : cec_tx_status) (stat : Nat) (w : World) (a : Nat)
    (ha : a ≠ HDMI_CEC_CTRL) : (hardirq_tx k stat w).2.regs a = w.regs a := by
  unfold hardirq_tx
  split_ifs <;> simp [readb_relaxed, writeb_relaxed, store, ha]

/-- The register writes of the chain. -/
theorem hardirq_tx_writes (k : cec_tx_status) (stat : Nat) (w : World) :
    writes (hardirq_tx k stat w).2.trace = writes w.trace ++
      (if stat &&& CEC_STAT_ERROR_INIT ≠ 0 ∧ w.cec.retries ≠ 0
       then [((w.regs HDMI_CEC_CTRL % 256 ||| CEC_CTRL_START) % 256, HDMI_CEC_CTRL)] else []) := by
  unfold hardirq_tx
  split_ifs <;> simp_all [readb_relaxed, writeb_relaxed, writes_append, writes]

/-- The retry counter after the chain. -/
theorem hardirq_tx_retries (k : cec_tx_status) (stat : Nat) (w : World) :
    (hardirq_tx k stat w).2.cec.retries =
      (if stat &&& CEC_STAT_ERROR_INIT ≠ 0 ∧ w.cec.retries ≠ 0 then w.cec.retries - 1
       else w.cec.retries) := by
  unfold hardirq_tx
  split_ifs <;> simp_all [readb_relaxed, writeb_relaxed]

/-- Return value and flag `tx_done` after the chain. -/
theorem hardirq_tx_flag (k : cec_tx_status) (stat : Nat) (w : World) :
    (hardirq_tx k stat w).1 =
      (if tx_done_assigned stat w.cec.retries then irqreturn_t.IRQ_WAKE_THREAD
       else irqreturn_t.IRQ_HANDLED) ∧
    (hardirq_tx k stat w).2.cec.tx_done = (w.cec.tx_done || tx_done_assigned stat w.cec.retries) := by
  unfold hardirq_tx tx_done_assigned
  split_ifs <;> simp_all [readb_relaxed, writeb_relaxed]

/-- Return value and flag `rx_done` after the receive block. -/
theorem hardirq_rx_flag (stat : Nat) (ret : irqreturn_t) (w : World) :
    (hardirq_rx stat ret w).1 =
      (if rx_done_assigned stat then irqreturn_t.IRQ_WAKE_THREAD else ret) ∧
    (hardirq_rx stat ret w).2.cec.rx_done = (w.cec.rx_done || rx_done_assigned stat) := by
  by_cases h : stat &&& CEC_STAT_EOM ≠ 0
  · simp [hardirq_rx_eom_eq stat ret w h, rx_done_assigned, h]
  · have h0 : stat &&& CEC_STAT_EOM = 0 := by simpa using h
    simp [hardirq_rx_no_eom stat ret w h0, rx_done_assigned, h0]

/-- Return value and both flags after the handler, for a nonzero status. -/
theorem hardirq_ret_flags (k : cec_tx_status) (w : World) (h : irq_stat w ≠ 0) :
    (dw_hdmi_cec_hardirq k w).1 =
      (if tx_done_assigned (irq_stat w) w.cec.retries = true ∨
          rx_done_assigned (irq_stat w) = true
       then irqreturn_t.IRQ_WAKE_THREAD else irqreturn_t.IRQ_HANDLED) ∧
    (dw_hdmi_cec_hardirq k w).2.cec.tx_done =
      (w.cec.tx_done || tx_done_assigned (irq_stat w) w.cec.retries) ∧
    (dw_hdmi_cec_hardirq k w).2.cec.rx_done =
      (w.cec.rx_done || rx_done_assigned (irq_stat w)) := by
  have hc : (acked w).cec = w.cec := by simp [acked_eq]
  rw [hardirq_unfold k w h]
  obtain ⟨r1, r2⟩ := hardirq_rx_flag (irq_stat w)
    (hardirq_tx k (irq_stat w) (acked w)).1 (hardirq_tx k (irq_stat w) (acked w)).2
  obtain ⟨t1, t2⟩ := hardirq_tx_flag k (irq_stat w) (acked w)
  have r3 := (hardirq_rx_frame (irq_stat w)
    (hardirq_tx k (irq_stat w) (acked w)).1 (hardirq_tx k (irq_stat w) (acked w)).2).2.2.1
  have t3 := (hardirq_tx_frame k (irq_stat w) (acked w)).2.2.1
  rw [r1, r2, r3, t1, t2, t3, hc]
  refine ⟨?_, rfl, rfl⟩
  cases tx_done_assigned (irq_stat w) w.cec.retries <;>
    cases rx_done_assigned (irq_stat w) <;> simp

/-- NACK without init-error and done, on the whole handler. -/
theorem hardirq_nack (k : cec_tx_status) (w : World)
    (hs : irq_stat w &&& CEC_STAT_ERROR_INIT = 0) (hd : irq_stat w &&& CEC_STAT_DONE = 0)
    (hn : irq_stat w &&& CEC_STAT_NACK ≠ 0) :
    (dw_hdmi_cec_hardirq k w).2.cec.retries = w.cec.retries ∧
    (dw_hdmi_cec_hardirq k w).2.cec.tx_done = true ∧
    (dw_hdmi_cec_hardirq k w).2.cec.tx_status = k.CEC_TX_STATUS_NACK ∧
    ctrl_writes (dw_hdmi_cec_hardirq k w).2.trace = ctrl_writes w.trace := by
  have hc : (acked w).cec = w.cec := by simp [acked_eq]
  rw [hardirq_unfold k w (and_ne_zero_ne_zero hn)]
  obtain ⟨-, r2, r3, r4, -, -, r7⟩ := hardirq_rx_frame (irq_stat w)
    (hardirq_tx k (irq_stat w) (acked w)).1 (hardirq_tx k (irq_stat w) (acked w)).2
  rw [r2, r3, r4, r7, hardirq_tx_nack k (irq_stat w) (acked w) hs hd hn]
  refine ⟨?_, rfl, rfl, ?_⟩
  · simp [hc]
  · simp [acked_eq, ctrl_writes_append, ctrl_writes, HDMI_CEC_CTRL, HDMI_IH_CEC_STAT0]

/-- None of init-error, done, NACK, on the whole handler. -/
theorem hardirq_idle (k : cec_tx_status) (w : World)
    (hs : irq_stat w &&& CEC_STAT_ERROR_INIT = 0) (hd : irq_stat w &&& CEC_STAT_DONE = 0)
    (hn : irq_stat w &&& CEC_STAT_NACK = 0) :
    (dw_hdmi_cec_hardirq k w).2.cec.retries = w.cec.retries ∧
    (dw_hdmi_cec_hardirq k w).2.cec.tx_done = w.cec.tx_done ∧
    (dw_hdmi_cec_hardirq k w).2.cec.tx_status = w.cec.tx_status ∧
    ctrl_writes (dw_hdmi_cec_hardirq k w).2.trace = ctrl_writes w.trace := by
  by_cases hz : irq_stat w = 0
  · simp [hardirq_zero k w hz, ctrl_writes_append, ctrl_writes]
  · have hc : (acked w).cec = w.cec := by simp [acked_eq]
    rw [hardirq_unfold k w hz]
    obtain ⟨-, r2, r3, r4, -, -, r7⟩ := hardirq_rx_frame (irq_stat w)
      (hardirq_tx k (irq_stat w) (acked w)).1 (hardirq_tx k (irq_stat w) (acked w)).2
    rw [r2, r3, r4, r7, hardirq_tx_idle k (irq_stat w) (acked w) hs hd hn]
    simp [acked_eq, ctrl_writes_append, ctrl_writes, HDMI_CEC_CTRL, HDMI_IH_CEC_STAT0]

theorem and_bit_eq_zero (s n : Nat) (h : s.testBit n = false) : s &&& BIT n = 0 := by
  apply Nat.eq_of_testBit_eq
  intro i
  rw [Nat.testBit_and, BIT_eq, Nat.testBit_two_pow, Nat.zero_testBit]
  by_cases hi : n = i
  · subst hi; simp [h]
  · simp [hi]

theorem hardirq_tx_trace (k : cec_tx_status) (stat : Nat) (w : World) :
    (hardirq_tx k stat w).2.trace = w.trace ++ tx_events stat w := by
  unfold hardirq_tx tx_events
  split_ifs <;> simp_all [readb_relaxed, writeb_relaxed]

theorem hardirq_rx_trace (stat : Nat) (ret : irqreturn_t) (w : World) :
    (hardirq_rx stat ret w).2.trace = w.trace ++ rx_events stat w := by
  by_cases h : stat &&& CEC_STAT_EOM ≠ 0
  · simp [hardirq_rx_eom_eq stat ret w h, rx_events, h]
  · have h0 : stat &&& CEC_STAT_EOM = 0 := by simpa using h
    simp [hardirq_rx_no_eom stat ret w h0, rx_events, h0]

/-- The world the receive block starts from agrees with the world on entry on
everything the block reads. -/
theorem hardirq_tx_acked_regs (k : cec_tx_status) (w : World) (a : Nat)
    (h1 : a ≠ HDMI_CEC_CTRL) (h2 : a ≠ HDMI_IH_CEC_STAT0) :
    (hardirq_tx k (irq_stat w) (acked w)).2.regs a = w.regs a := by
  rw [hardirq_tx_regs k _ _ a h1]
  simp [acked_eq, store, h2]

/-- The trace of the handler for a nonzero status: read and acknowledge the
status, then the transmit-outcome chain, then the receive block. -/
theorem hardirq_trace (k : cec_tx_status) (w : World) (h : irq_stat w ≠ 0) :
    (dw_hdmi_cec_hardirq k w).2.trace = w.trace ++
      (Ev.rd HDMI_IH_CEC_STAT0 :: Ev.wr (irq_stat w) HDMI_IH_CEC_STAT0 ::
        (tx_events (irq_stat w) w ++ rx_events (irq_stat w) w)) := by
  have e1 : tx_events (irq_stat w) (acked w) = tx_events (irq_stat w) w := by
    simp [tx_events, acked_eq, store, HDMI_CEC_CTRL, HDMI_IH_CEC_STAT0]
  have e2 : rx_events (irq_stat w) (hardirq_tx k (irq_stat w) (acked w)).2 =
      rx_events (irq_stat w) w := by
    simp only [rx_events]
    rw [hardirq_tx_acked_regs k w HDMI_CEC_RX_CNT (by decide) (by decide)]
  rw [hardirq_unfold k w h, hardirq_rx_trace, hardirq_tx_trace, e1, e2]
  simp [acked_eq]

/-- The frame buffer after the handler has seen end-of-message. -/
theorem hardirq_eom_msg (k : cec_tx_status) (w : World)
    (h : irq_stat w &&& CEC_STAT_EOM ≠ 0) :
    (dw_hdmi_cec_hardirq k w).2.cec.rx_msg =
      { len := min (w.regs HDMI_CEC_RX_CNT % 256) 16,
        msg := fun i => if i < min (w.regs HDMI_CEC_RX_CNT % 256) 16
          then w.regs (HDMI_CEC_RX_DATA0 + i) % 256 else w.cec.rx_msg.msg i } ∧
    (dw_hdmi_cec_hardirq k w).2.regs HDMI_CEC_LOCK = 0 := by
  have hm : (hardirq_tx k (irq_stat w) (acked w)).2.cec.rx_msg = w.cec.rx_msg := by
    rw [(hardirq_tx_frame k (irq_stat w) (acked w)).2.1]; simp [acked_eq]
  have hd : ∀ i, (hardirq_tx k (irq_stat w) (acked w)).2.regs (HDMI_CEC_RX_DATA0 + i) =
      w.regs (HDMI_CEC_RX_DATA0 + i) := by
    intro i
    apply hardirq_tx_acked_regs <;> simp [HDMI_CEC_RX_DATA0, HDMI_CEC_CTRL, HDMI_IH_CEC_STAT0] <;>
      omega
  rw [hardirq_unfold k w (and_ne_zero_ne_zero h), hardirq_rx_eom_eq _ _ _ h]
  simp only [hm, hd, hardirq_tx_acked_regs k w HDMI_CEC_RX_CNT (by decide) (by decide)]
  simp [store]

/-- The receive side after the handler has not seen end-of-message. -/
theorem hardirq_no_eom (k : cec_tx_status) (w : World)
    (h : irq_stat w &&& CEC_STAT_EOM = 0) :
    (dw_hdmi_cec_hardirq k w).2.cec.rx_msg = w.cec.rx_msg ∧
    (dw_hdmi_cec_hardirq k w).2.cec.rx_done = w.cec.rx_done ∧
    (dw_hdmi_cec_hardirq k w).2.regs HDMI_CEC_LOCK = w.regs HDMI_CEC_LOCK := by
  by_cases hz : irq_stat w = 0
  · simp [hardirq_zero k w hz]
  · rw [hardirq_unfold k w hz, hardirq_rx_no_eom _ _ _ h]
    obtain ⟨-, t2, t3, -⟩ := hardirq_tx_frame k (irq_stat w) (acked w)
    rw [t2, t3, hardirq_tx_acked_regs k w HDMI_CEC_LOCK (by decide) (by decide)]
    simp [acked_eq]

/-- The transmit side after the handler is what the transmit-outcome chain
leaves: the receive block does not touch it. -/
theorem hardirq_tx_side (k : cec_tx_status) (w : World) (h : irq_stat w ≠ 0) :
    (dw_hdmi_cec_hardirq k w).2.cec.tx_status =
      (hardirq_tx k (irq_stat w) (acked w)).2.cec.tx_status ∧
    (dw_hdmi_cec_hardirq k w).2.cec.tx_done =
      (hardirq_tx k (irq_stat w) (acked w)).2.cec.tx_done ∧
    (dw_hdmi_cec_hardirq k w).2.cec.retries =
      (hardirq_tx k (irq_stat w) (acked w)).2.cec.retries := by
  rw [hardirq_unfold k w h]
  obtain ⟨-, r2, r3, r4, -⟩ := hardirq_rx_frame (irq_stat w)
    (hardirq_tx k (irq_stat w) (acked w)).1 (hardirq_tx k (irq_stat w) (acked w)).2
  exact ⟨r2, r3, r4⟩

/-! ### The retry counter -/

/-- The retry counter after the handler, whatever the status. -/
theorem hardirq_retries (k : cec_tx_status) (w : World) :
    (dw_hdmi_cec_hardirq k w).2.cec.retries =
      (if irq_stat w &&& CEC_STAT_ERROR_INIT ≠ 0 ∧ w.cec.retries ≠ 0 then w.cec.retries - 1
       else w.cec.retries) := by
  by_cases hz : irq_stat w = 0
  · simp [hardirq_zero k w hz, hz]
  · rw [(hardirq_tx_side k w hz).2.2, hardirq_tx_retries]
    simp [acked_eq]

theorem step_retries (k : cec_tx_status) (o : Op) (w : World) (b : Nat)
    (ho : o.attempts_ok) (h0 : 0 ≤ w.cec.retries) (hb : w.cec.retries ≤ (b : Int))
    (h255 : b ≤ 255) :
    0 ≤ (step k o w).cec.retries ∧
    (step k o w).cec.retries ≤ ((last_attempts_from b [o] : Nat) : Int) ∧
    last_attempts_from b [o] ≤ 255 := by
  cases o with
  | log_addr la =>
    simp only [step, last_attempts_from, List.foldl]
    rw [(log_addr_frame la w).2.2.2.2.1]; exact ⟨h0, hb, h255⟩
  | transmit a t m =>
    have ha : a ≤ 255 := ho
    simp only [step, last_attempts_from, List.foldl]
    rw [(transmit_frame a t m w).2.2.2.2.2.1, Nat.mod_eq_of_lt (by omega)]
    exact ⟨by omega, le_refl _, ha⟩
  | enable e =>
    simp only [step, last_attempts_from, List.foldl]
    rw [(enable_frame e w).2.2.2.2.2.1]; exact ⟨h0, hb, h255⟩
  | hardirq =>
    simp only [step, last_attempts_from, List.foldl]
    rw [hardirq_retries]
    refine ⟨?_, ?_, h255⟩ <;> split <;> omega
  | thread =>
    simp only [step, last_attempts_from, List.foldl, thread_eq]
    exact ⟨h0, hb, h255⟩
  | hw f => exact ⟨h0, hb, h255⟩

theorem run_retries (k : cec_tx_status) (ops : List Op) :
    ∀ (w : World) (b : Nat), (∀ o ∈ ops, o.attempts_ok) → 0 ≤ w.cec.retries →
      w.cec.retries ≤ (b : Int) → b ≤ 255 →
      0 ≤ (run k ops w).cec.retries ∧
      (run k ops w).cec.retries ≤ ((last_attempts_from b ops : Nat) : Int) ∧
      last_attempts_from b ops ≤ 255 := by
  induction ops with
  | nil => intro w b _ h0 hb h255; exact ⟨h0, hb, h255⟩
  | cons o t ih =>
    intro w b hok h0 hb h255
    obtain ⟨s1, s2, s3⟩ := step_retries k o w b (hok o (by simp)) h0 hb h255
    exact ih (step k o w) (last_attempts_from b [o]) (fun o2 h2 => hok o2 (by simp [h2]))
      s1 s2 s3

/-! ### The handler with assignments recorded -/

theorem events_append (a b : List Step) : events (a ++ b) = events a ++ events b := by
  induction a with
  | nil => rfl
  | cons e t ih => cases e <;> simp [events, ih]

theorem hardirq_tx_log_spec (k : cec_tx_status) (stat : Nat) (l : Logged) :
    (hardirq_tx_log k stat l).1 = (hardirq_tx k stat l.w).1 ∧
    (hardirq_tx_log k stat l).2.w = (hardirq_tx k stat l.w).2 ∧
    ∃ r, (hardirq_tx_log k stat l).2.log = l.log ++ r ∧
      (hardirq_tx k stat l.w).2.trace = l.w.trace ++ events r := by
  unfold hardirq_tx_log hardirq_tx
  split_ifs
  · refine ⟨rfl, rfl, [Step.ev (Ev.rd HDMI_CEC_CTRL),
      Step.ev (Ev.wr ((l.w.regs HDMI_CEC_CTRL % 256 ||| CEC_CTRL_START) % 256) HDMI_CEC_CTRL),
      Step.upd Field.retries], ?_, ?_⟩
    · simp [log_readb, log_writeb, log_assign, readb_relaxed]
    · simp [events, readb_relaxed, writeb_relaxed]
  · exact ⟨rfl, rfl, [Step.upd Field.tx_status, Step.upd Field.tx_done],
      by simp [log_assign], by simp [events]⟩
  · exact ⟨rfl, rfl, [Step.upd Field.tx_status, Step.upd Field.tx_done],
      by simp [log_assign], by simp [events]⟩
  · exact ⟨rfl, rfl, [Step.upd Field.tx_status, Step.upd Field.tx_done],
      by simp [log_assign], by simp [events]⟩
  · exact ⟨rfl, rfl, [], by simp, by simp [events]⟩

theorem rx_data_loop_log_succ (n : Nat) (l : Logged) :
    rx_data_loop_log (n + 1) l = rx_data_body_log n (rx_data_loop_log n l) := by
  simp [rx_data_loop_log, List.range_succ, List.foldl_append]

theorem rx_data_loop_log_spec (n : Nat) (l : Logged) :
    (rx_data_loop_log n l).w = rx_data_loop n l.w ∧
    ∃ r, (rx_data_loop_log n l).log = l.log ++ r ∧
      (rx_data_loop n l.w).trace = l.w.trace ++ events r := by
  induction n with
  | zero => exact ⟨rfl, [], by simp [rx_data_loop_log], by simp [rx_data_loop, events]⟩
  | succ n ih =>
    obtain ⟨i1, r, i2, i3⟩ := ih
    rw [rx_data_loop_log_succ, rx_data_loop_succ]
    refine ⟨?_, r ++ [Step.ev (Ev.rd (HDMI_CEC_RX_DATA0 + n)), Step.upd Field.rx_msg], ?_, ?_⟩
    · simp [rx_data_body_log, log_assign, log_readb, readb_relaxed, i1]
    · simp [rx_data_body_log, log_assign, log_readb, i2]
    · simp [i3, events_append, events]

theorem hardirq_rx_log_spec (stat : Nat) (ret : irqreturn_t) (l : Logged) :
    (hardirq_rx_log stat ret l).1 = (hardirq_rx stat ret l.w).1 ∧
    (hardirq_rx_log stat ret l).2.w = (hardirq_rx stat ret l.w).2 ∧
    ∃ r, (hardirq_rx_log stat ret l).2.log = l.log ++ r ∧
      (hardirq_rx stat ret l.w).2.trace = l.w.trace ++ events r := by
  unfold hardirq_rx_log hardirq_rx
  split_ifs
  · obtain ⟨i1, r, i2, i3⟩ := rx_data_loop_log_spec
      (if (log_readb HDMI_CEC_RX_CNT l).1 > CEC_MAX_MSG_SIZE then CEC_MAX_MSG_SIZE
       else (log_readb HDMI_CEC_RX_CNT l).1) (log_readb HDMI_CEC_RX_CNT l).2
    refine ⟨rfl, ?_, [Step.ev (Ev.rd HDMI_CEC_RX_CNT)] ++ r ++
      [Step.ev (Ev.wr 0 HDMI_CEC_LOCK), Step.upd Field.rx_msg, Step.upd Field.rx_done], ?_, ?_⟩
    · simp only [log_assign, log_writeb]
      rw [i1]
      rfl
    · simp only [log_assign, log_writeb]
      rw [i2]
      simp [log_readb]
    · have i3b : (rx_data_loop
          (if (readb_relaxed HDMI_CEC_RX_CNT l.w).1 > CEC_MAX_MSG_SIZE then CEC_MAX_MSG_SIZE
           else (readb_relaxed HDMI_CEC_RX_CNT l.w).1)
          (readb_relaxed HDMI_CEC_RX_CNT l.w).2).trace =
          (readb_relaxed HDMI_CEC_RX_CNT l.w).2.trace ++ events r := i3
      simp only [writeb_relaxed]
      rw [i3b]
      simp [events_append, events, readb_relaxed]
  · exact ⟨rfl, rfl, [], by simp, by simp [events]⟩


/-- The handler with assignments recorded is the handler: same return value,
same final world, and its accesses to the outside are the trace. -/
theorem hardirq_log_spec (k : cec_tx_status) (w : World) :
    (dw_hdmi_cec_hardirq_log k w).1 = (dw_hdmi_cec_hardirq k w).1 ∧
    (dw_hdmi_cec_hardirq_log k w).2.w = (dw_hdmi_cec_hardirq k w).2 ∧
    (dw_hdmi_cec_hardirq k w).2.trace = w.trace ++ events (dw_hdmi_cec_hardirq_log k w).2.log := by
  by_cases hz : irq_stat w = 0
  · have hz2 : w.regs HDMI_IH_CEC_STAT0 % 256 = 0 := hz
    simp [dw_hdmi_cec_hardirq_log, dw_hdmi_cec_hardirq, log_readb, readb_relaxed, hz2, events]
  · have hz2 : ¬ w.regs HDMI_IH_CEC_STAT0 % 256 = 0 := hz
    obtain ⟨t1, t2, rt, t3, t4⟩ := hardirq_tx_log_spec k (irq_stat w)
      (log_writeb (irq_stat w) HDMI_IH_CEC_STAT0
        (log_readb HDMI_IH_CEC_STAT0 { w := w, log := [] }).2)
    obtain ⟨r1, r2, rr, r3, r4⟩ := hardirq_rx_log_spec (irq_stat w)
      (hardirq_tx_log k (irq_stat w) (log_writeb (irq_stat w) HDMI_IH_CEC_STAT0
        (log_readb HDMI_IH_CEC_STAT0 { w := w, log := [] }).2)).1
      (hardirq_tx_log k (irq_stat w) (log_writeb (irq_stat w) HDMI_IH_CEC_STAT0
        (log_readb HDMI_IH_CEC_STAT0 { w := w, log := [] }).2)).2
    have hw : (log_writeb (irq_stat w) HDMI_IH_CEC_STAT0
        (log_readb HDMI_IH_CEC_STAT0 { w := w, log := [] }).2).w = acked w := rfl
    have hl : (log_writeb (irq_stat w) HDMI_IH_CEC_STAT0
        (log_readb HDMI_IH_CEC_STAT0 { w := w, log := [] }).2).log =
        [Step.ev (Ev.rd HDMI_IH_CEC_STAT0),
         Step.ev (Ev.wr (irq_stat w) HDMI_IH_CEC_STAT0)] := by
      simp [log_writeb, log_readb, irq_stat]
    have hdef : dw_hdmi_cec_hardirq_log k w = hardirq_rx_log (irq_stat w)
        (hardirq_tx_log k (irq_stat w) (log_writeb (irq_stat w) HDMI_IH_CEC_STAT0
          (log_readb HDMI_IH_CEC_STAT0 { w := w, log := [] }).2)).1
        (hardirq_tx_log k (irq_stat w) (log_writeb (irq_stat w) HDMI_IH_CEC_STAT0
          (log_readb HDMI_IH_CEC_STAT0 { w := w, log := [] }).2)).2 := by
      simp [dw_hdmi_cec_hardirq_log, log_readb, readb_relaxed, hz2, irq_stat]
    rw [hw] at t1 t2 t4
    rw [t1, t2] at r1 r2 r4
    rw [t1] at r3
    rw [hdef, hardirq_unfold k w hz, t1]
    refine ⟨r1, r2, ?_⟩
    rw [r4, t4, r3, t3, hl]
    simp [acked_eq, events_append, events]

/-- For a nonzero status the first two steps of the handler are the read of
the status register and the write of the status back to it. -/
theorem hardirq_log_head (k : cec_tx_status) (w : World) (h : irq_stat w ≠ 0) :
    ∃ rest, (dw_hdmi_cec_hardirq_log k w).2.log =
      Step.ev (Ev.rd HDMI_IH_CEC_STAT0) ::
        Step.ev (Ev.wr (irq_stat w) HDMI_IH_CEC_STAT0) :: rest := by
  have hz2 : ¬ w.regs HDMI_IH_CEC_STAT0 % 256 = 0 := h
  obtain ⟨-, -, rt, t3, -⟩ := hardirq_tx_log_spec k (irq_stat w)
    (log_writeb (irq_stat w) HDMI_IH_CEC_STAT0
      (log_readb HDMI_IH_CEC_STAT0 { w := w, log := [] }).2)
  obtain ⟨-, -, rr, r3, -⟩ := hardirq_rx_log_spec (irq_stat w)
    (hardirq_tx_log k (irq_stat w) (log_writeb (irq_stat w) HDMI_IH_CEC_STAT0
      (log_readb HDMI_IH_CEC_STAT0 { w := w, log := [] }).2)).1
    (hardirq_tx_log k (irq_stat w) (log_writeb (irq_stat w) HDMI_IH_CEC_STAT0
      (log_readb HDMI_IH_CEC_STAT0 { w := w, log := [] }).2)).2
  have hl : (log_writeb (irq_stat w) HDMI_IH_CEC_STAT0
      (log_readb HDMI_IH_CEC_STAT0 { w := w, log := [] }).2).log =
      [Step.ev (Ev.rd HDMI_IH_CEC_STAT0),
       Step.ev (Ev.wr (irq_stat w) HDMI_IH_CEC_STAT0)] := by
    simp [log_writeb, log_readb, irq_stat]
  have hdef : dw_hdmi_cec_hardirq_log k w = hardirq_rx_log (irq_stat w)
      (hardirq_tx_log k (irq_stat w) (log_writeb (irq_stat w) HDMI_IH_CEC_STAT0
        (log_readb HDMI_IH_CEC_STAT0 { w := w, log := [] }).2)).1
      (hardirq_tx_log k (irq_stat w) (log_writeb (irq_stat w) HDMI_IH_CEC_STAT0
        (log_readb HDMI_IH_CEC_STAT0 { w := w, log := [] }).2)).2 := by
    simp [dw_hdmi_cec_hardirq_log, log_readb, readb_relaxed, hz2, irq_stat]
  refine ⟨rt ++ rr, ?_⟩
  rw [hdef, r3, t3, hl]
  simp

/-- In a list that starts with `a`, `b`, every element after which the list
continues from a later position has `b` before it, unless it is `a` or `b`
itself. -/
theorem mem_before_of_head {α : Type} (a b x : α) (rest pre post : List α)
    (h : a :: b :: rest = pre ++ x :: post) (h1 : pre ≠ []) (h2 : pre ≠ [a]) : b ∈ pre := by
  match pre, h, h1, h2 with
  | [], _, h1, _ => exact absurd rfl h1
  | [y], h, _, h2 =>
    simp only [List.singleton_append, List.cons.injEq] at h
    rw [← h.1] at h2
    exact absurd rfl h2
  | y :: z :: t, h, _, _ =>
    simp only [List.cons_append, List.cons.injEq] at h
    rw [← h.2.1]
    simp

/-! ## Claims -/

/-- C1: after `dw_hdmi_cec_transmit(attempts = N, ...)` (`N ≤ 255`, frame of at
most 16 bytes) from a state with `tx_done = false`, let the handler run `N`
times on a status with the init-error bit set and then once on a status with
done set and init-error clear, the threaded handler running any number of times
before each interrupt and at least once at the end.  After the first `j ≤ N`
interrupts exactly `j` writes to the control register have happened, all with
the start bit, `tx_done` is false and no completion has been delivered; none is
delivered before the final interrupt; at the end exactly one completion has
been delivered, `(CEC_TX_STATUS_OK, 0, 0, 0, 0)`, after exactly `N` retries.
The end-of-message bit of the statuses plays no part. -/
theorem transmit_retries_then_ok (k : cec_tx_status) (w : World) (N sft : Nat)
    (frame : cec_msg) (xs : List (Nat × Nat × ((Nat → Nat) → (Nat → Nat))))
    (tN m sF : Nat) (fF : (Nat → Nat) → (Nat → Nat))
    (hN : N ≤ 255) (_hlen : frame.len ≤ CEC_MAX_MSG_SIZE) (hd : w.cec.tx_done = false)
    (hxs : xs.length = N)
    (herr : ∀ x ∈ xs, x.2.1 < 256 ∧ x.2.1 &&& CEC_STAT_ERROR_INIT ≠ 0)
    (hF : sF < 256 ∧ sF &&& CEC_STAT_DONE ≠ 0 ∧ sF &&& CEC_STAT_ERROR_INIT = 0) :
    (∀ j, j ≤ N →
      (run k (rounds (xs.take j)) (dw_hdmi_cec_transmit N sft frame w).2).cec.tx_done = false ∧
      completions (run k (rounds (xs.take j)) (dw_hdmi_cec_transmit N sft frame w).2).trace =
        completions w.trace ∧
      (start_writes
          (run k (rounds (xs.take j)) (dw_hdmi_cec_transmit N sft frame w).2).trace).length =
        (start_writes (dw_hdmi_cec_transmit N sft frame w).2.trace).length + j ∧
      (ctrl_writes
          (run k (rounds (xs.take j)) (dw_hdmi_cec_transmit N sft frame w).2).trace).length =
        (ctrl_writes (dw_hdmi_cec_transmit N sft frame w).2.trace).length + j) ∧
    completions (run k (rounds xs ++ threads tN)
        (dw_hdmi_cec_transmit N sft frame w).2).trace = completions w.trace ∧
    completions (run k (rounds xs ++ threads tN ++ irq sF fF ++ threads (m + 1))
        (dw_hdmi_cec_transmit N sft frame w).2).trace =
      completions w.trace ++ [(k.CEC_TX_STATUS_OK, 0, 0, 0, 0)] ∧
    (start_writes (run k (rounds xs ++ threads tN ++ irq sF fF ++ threads (m + 1))
        (dw_hdmi_cec_transmit N sft frame w).2).trace).length =
      (start_writes (dw_hdmi_cec_transmit N sft frame w).2.trace).length + N ∧
    (run k (rounds xs ++ threads tN ++ irq sF fF ++ threads (m + 1))
        (dw_hdmi_cec_transmit N sft frame w).2).cec.tx_done = false := by
  obtain ⟨-, -, -, f4, -, f6, f7, -⟩ := transmit_frame N sft frame w
  have hret : (dw_hdmi_cec_transmit N sft frame w).2.cec.retries = (N : Int) := by
    rw [f6, Nat.mod_eq_of_lt (by omega)]
  have hd1 : (dw_hdmi_cec_transmit N sft frame w).2.cec.tx_done = false := by rw [f4, hd]
  refine ⟨?_, ?_, ?_, ?_, ?_⟩
  · intro j hj
    have hlen : (xs.take j).length = j := by rw [List.length_take, hxs]; omega
    obtain ⟨-, r2, r3, r4⟩ := run_rounds k (xs.take j) (dw_hdmi_cec_transmit N sft frame w).2
      (by rw [hret, hlen]; omega) (fun x hx => herr x (List.mem_of_mem_take hx))
    obtain ⟨d1, d2⟩ := r2 hd1
    rw [hlen] at r3 r4
    exact ⟨d1, by rw [d2, f7], r4, r3⟩
  all_goals
    obtain ⟨r1, r2, -, r4⟩ := run_rounds k xs (dw_hdmi_cec_transmit N sft frame w).2
      (by rw [hret, hxs]) herr
    obtain ⟨d1, d2⟩ := r2 hd1
    obtain ⟨a1, -, a3, a4, a5⟩ := run_threads k tN
      (run k (rounds xs) (dw_hdmi_cec_transmit N sft frame w).2)
    rw [d1] at a3 a4
    simp only [Bool.false_eq_true, false_and, if_false, List.append_nil, ite_self] at a3 a4
  · rw [run_append, a4, d2, f7]
  all_goals
    obtain ⟨b1, b2⟩ := step_raise_frame k sF fF
      (run k (threads tN) (run k (rounds xs) (dw_hdmi_cec_transmit N sft frame w).2))
    have hst := irq_stat_raise k sF fF
      (run k (threads tN) (run k (rounds xs) (dw_hdmi_cec_transmit N sft frame w).2)) hF.1
    obtain ⟨-, -, c3, c4, c5⟩ := hardirq_done k (step k (raise sF fF)
      (run k (threads tN) (run k (rounds xs) (dw_hdmi_cec_transmit N sft frame w).2)))
      (by rw [hst]; exact hF.2.2) (by rw [hst]; exact hF.2.1)
    have c6 := (hardirq_frame k (step k (raise sF fF)
      (run k (threads tN) (run k (rounds xs) (dw_hdmi_cec_transmit N sft frame w).2)))).2.1
    obtain ⟨-, -, e3, e4, e5⟩ := run_threads k (m + 1) (run k (irq sF fF)
      (run k (threads tN) (run k (rounds xs) (dw_hdmi_cec_transmit N sft frame w).2)))
    rw [run_irq] at e3 e4 e5
    simp only [run_append, run_irq]
  · rw [e4, c3, c4, c6, b2, a4, d2, f7]; simp
  · have hcw : ctrl_writes (run k (threads (m + 1)) (dw_hdmi_cec_hardirq k (step k (raise sF fF)
        (run k (threads tN) (run k (rounds xs)
          (dw_hdmi_cec_transmit N sft frame w).2)))).2).trace =
        ctrl_writes (run k (rounds xs) (dw_hdmi_cec_transmit N sft frame w).2).trace := by
      rw [e5, c5, b2, a5]
    rw [start_writes_congr hcw, r4, hxs]
  · rw [e3]; simp

/-- Witness for C1: `transmit(1, 0, [0x10])`, init-error once, then done: one
retry and one completion `(ok, 0, 0, 0, 0)`. -/
theorem transmit_retries_then_ok_witness :
    (1 : Nat) ≤ 255 ∧ ping.len ≤ CEC_MAX_MSG_SIZE ∧
    (World.init (fun _ => 0)).cec.tx_done = false ∧
    (0x10 : Nat) &&& CEC_STAT_ERROR_INIT ≠ 0 ∧
    ((0x01 : Nat) &&& CEC_STAT_DONE ≠ 0 ∧ (0x01 : Nat) &&& CEC_STAT_ERROR_INIT = 0) ∧
    completions (run ⟨1, 4, 32⟩ (rounds [(0, 0x10, id)] ++ threads 0 ++ irq 0x01 id ++ threads (0 + 1))
        (dw_hdmi_cec_transmit 1 0 ping (World.init (fun _ => 0))).2).trace =
      completions (World.init (fun _ => 0)).trace ++ [(1, 0, 0, 0, 0)] ∧
    (start_writes (run ⟨1, 4, 32⟩ (rounds [(0, 0x10, id)] ++ threads 0 ++ irq 0x01 id ++ threads (0 + 1))
        (dw_hdmi_cec_transmit 1 0 ping (World.init (fun _ => 0))).2).trace).length =
      (start_writes (dw_hdmi_cec_transmit 1 0 ping (World.init (fun _ => 0))).2.trace).length + 1 :=
  ⟨by decide, by decide, rfl, by decide, by decide,
    (transmit_retries_then_ok ⟨1, 4, 32⟩ (World.init (fun _ => 0)) 1 0 ping [(0, 0x10, id)]
      0 0 0x01 id (by decide) (by decide) rfl rfl (by simp; decide) (by decide)).2.2.1,
    (transmit_retries_then_ok ⟨1, 4, 32⟩ (World.init (fun _ => 0)) 1 0 ping [(0, 0x10, id)]
      0 0 0x01 id (by decide) (by decide) rfl rfl (by simp; decide) (by decide)).2.2.2.1⟩

/-- C2: after `dw_hdmi_cec_transmit(attempts = N, ...)` (`N ≤ 255`), `N`
consecutive interrupts whose status has the init-error bit set make exactly `N`
writes to the control register, all with the start bit, and use up the
retries; the next such interrupt writes nothing to the control register, sets
`tx_status = CEC_TX_STATUS_MAX_RETRIES` and `tx_done = true` and returns
`IRQ_WAKE_THREAD`.  With `N = 0` this is the immediate init-error. -/
theorem init_error_exhausts_retries (k : cec_tx_status) (w : World) (N sft : Nat)
    (frame : cec_msg) (xs : List (Nat × ((Nat → Nat) → (Nat → Nat))))
    (s : Nat) (f : (Nat → Nat) → (Nat → Nat))
    (hN : N ≤ 255) (_hlen : frame.len ≤ CEC_MAX_MSG_SIZE) (hxs : xs.length = N)
    (herr : ∀ x ∈ xs, x.1 < 256 ∧ x.1 &&& CEC_STAT_ERROR_INIT ≠ 0)
    (hs : s < 256 ∧ s &&& CEC_STAT_ERROR_INIT ≠ 0) :
    (ctrl_writes (run k (irqs xs) (dw_hdmi_cec_transmit N sft frame w).2).trace).length =
      (ctrl_writes (dw_hdmi_cec_transmit N sft frame w).2.trace).length + N ∧
    (start_writes (run k (irqs xs) (dw_hdmi_cec_transmit N sft frame w).2).trace).length =
      (start_writes (dw_hdmi_cec_transmit N sft frame w).2.trace).length + N ∧
    (run k (irqs xs) (dw_hdmi_cec_transmit N sft frame w).2).cec.retries = 0 ∧
    (dw_hdmi_cec_hardirq k (step k (raise s f)
      (run k (irqs xs) (dw_hdmi_cec_transmit N sft frame w).2))).1 =
        irqreturn_t.IRQ_WAKE_THREAD ∧
    (dw_hdmi_cec_hardirq k (step k (raise s f)
      (run k (irqs xs) (dw_hdmi_cec_transmit N sft frame w).2))).2.cec.tx_status =
        k.CEC_TX_STATUS_MAX_RETRIES ∧
    (dw_hdmi_cec_hardirq k (step k (raise s f)
      (run k (irqs xs) (dw_hdmi_cec_transmit N sft frame w).2))).2.cec.tx_done = true ∧
    ctrl_writes (dw_hdmi_cec_hardirq k (step k (raise s f)
      (run k (irqs xs) (dw_hdmi_cec_transmit N sft frame w).2))).2.trace =
        ctrl_writes (run k (irqs xs) (dw_hdmi_cec_transmit N sft frame w).2).trace := by
  have hret : (dw_hdmi_cec_transmit N sft frame w).2.cec.retries = (N : Int) := by
    rw [(transmit_frame N sft frame w).2.2.2.2.2.1, Nat.mod_eq_of_lt (by omega)]
  have hlen : (xs.map (fun x => ((0 : Nat), x.1, x.2))).length = N := by
    rw [List.length_map, hxs]
  obtain ⟨r1, -, r3, r4⟩ := run_rounds k (xs.map (fun x => (0, x.1, x.2)))
    (dw_hdmi_cec_transmit N sft frame w).2 (by rw [hret, hlen])
    (by
      intro y hy
      obtain ⟨x, hx, rfl⟩ := List.mem_map.1 hy
      exact herr x hx)
  rw [hlen] at r1 r3 r4
  rw [← irqs_eq_rounds] at r1 r3 r4
  have hz : (run k (irqs xs) (dw_hdmi_cec_transmit N sft frame w).2).cec.retries = 0 := by
    rw [r1, hret]; omega
  have hst := irq_stat_raise k s f (run k (irqs xs) (dw_hdmi_cec_transmit N sft frame w).2) hs.1
  obtain ⟨b1, b2⟩ := step_raise_frame k s f
    (run k (irqs xs) (dw_hdmi_cec_transmit N sft frame w).2)
  obtain ⟨c1, -, c3, c4, c5⟩ := hardirq_max k (step k (raise s f)
    (run k (irqs xs) (dw_hdmi_cec_transmit N sft frame w).2))
    (by rw [hst]; exact hs.2) (by rw [b1]; exact hz)
  exact ⟨r3, r4, hz, c1, c4, c3, by rw [c5, b2]⟩

/-- Witness for C2: `attempts = 0` and an immediate init-error. -/
theorem init_error_exhausts_retries_witness :
    (0 : Nat) ≤ 255 ∧ ping.len ≤ CEC_MAX_MSG_SIZE ∧
    ((0x10 : Nat) < 256 ∧ (0x10 : Nat) &&& CEC_STAT_ERROR_INIT ≠ 0) ∧
    (dw_hdmi_cec_hardirq ⟨1, 4, 32⟩ (step ⟨1, 4, 32⟩ (raise 0x10 id)
      (run ⟨1, 4, 32⟩ (irqs []) (dw_hdmi_cec_transmit 0 0 ping (World.init (fun _ => 0))).2))).2.cec.tx_status = 32 ∧
    ctrl_writes (dw_hdmi_cec_hardirq ⟨1, 4, 32⟩ (step ⟨1, 4, 32⟩ (raise 0x10 id)
      (run ⟨1, 4, 32⟩ (irqs []) (dw_hdmi_cec_transmit 0 0 ping (World.init (fun _ => 0))).2))).2.trace =
      ctrl_writes (run ⟨1, 4, 32⟩ (irqs []) (dw_hdmi_cec_transmit 0 0 ping (World.init (fun _ => 0))).2).trace :=
  ⟨by decide, by decide, by decide,
    (init_error_exhausts_retries ⟨1, 4, 32⟩ (World.init (fun _ => 0)) 0 0 ping [] 0x10 id
      (by decide) (by decide) rfl (by simp) (by decide)).2.2.2.2.1,
    (init_error_exhausts_retries ⟨1, 4, 32⟩ (World.init (fun _ => 0)) 0 0 ping [] 0x10 id
      (by decide) (by decide) rfl (by simp) (by decide)).2.2.2.2.2.2⟩

/-- C3: starting from an empty bitmap, claiming the addresses `a_1..a_k`
(each in `[0,14]`, `k ≥ 1`) leaves `cec->addresses` equal to the OR of the bits
`2^a_i` and bit 15; the result depends only on which addresses occur, not on
their order or repetition; the invalid sentinel resets any bitmap to 0; every
call returns 0. -/
theorem log_addr_bitmap (as : List Nat) (w : World) (hne : as ≠ [])
    (hr : ∀ a ∈ as, a ≤ 14) (h0 : w.cec.addresses = 0) :
    (log_addr_seq as w).cec.addresses = or_bits as ||| BIT 15 ∧
    (∀ (bs : List Nat) (w2 : World), (∀ a, a ∈ bs ↔ a ∈ as) → w2.cec.addresses = 0 →
      (log_addr_seq bs w2).cec.addresses = (log_addr_seq as w).cec.addresses) ∧
    (∀ w1 : World, (dw_hdmi_cec_log_addr CEC_LOG_ADDR_INVALID w1).2.cec.addresses = 0) ∧
    (∀ (la : Nat) (w1 : World), (dw_hdmi_cec_log_addr la w1).1 = 0) := by
  have key : ∀ (cs : List Nat) (v : World), cs ≠ [] → (∀ a ∈ cs, a ≤ 14) →
      v.cec.addresses = 0 → (log_addr_seq cs v).cec.addresses = or_bits cs ||| BIT 15 := by
    intro cs v hcs hcr hv
    rw [log_addr_seq_addresses cs v hcr (by rw [hv]; norm_num), hv]
    simp [hcs]
  refine ⟨key as w hne hr h0, ?_, log_addr_invalid, log_addr_ret⟩
  intro bs w2 hbs hw2
  have hbne : bs ≠ [] := by
    obtain ⟨a, ha⟩ := List.exists_mem_of_ne_nil as hne
    exact List.ne_nil_of_mem ((hbs a).2 ha)
  rw [key as w hne hr h0, key bs w2 hbne (fun a ha => hr a ((hbs a).1 ha)) hw2,
    or_bits_congr as bs hbs]

/-- Witness for C3: claiming 4, 0, 4 on a fresh controller gives `0x8011`, and
so does claiming 0, 4. -/
theorem log_addr_bitmap_witness :
    ([4, 0, 4] : List Nat) ≠ [] ∧ (∀ a ∈ ([4, 0, 4] : List Nat), a ≤ 14) ∧
    (World.init (fun _ => 0)).cec.addresses = 0 ∧
    (log_addr_seq [4, 0, 4] (World.init (fun _ => 0))).cec.addresses =
      or_bits [4, 0, 4] ||| BIT 15 ∧
    or_bits [4, 0, 4] ||| BIT 15 = 0x8011 ∧
    (log_addr_seq [0, 4] (World.init (fun _ => 0))).cec.addresses =
      (log_addr_seq [4, 0, 4] (World.init (fun _ => 0))).cec.addresses :=
  ⟨by simp, by decide, rfl,
    (log_addr_bitmap [4, 0, 4] (World.init (fun _ => 0)) (by simp) (by decide) rfl).1,
    by decide,
    (log_addr_bitmap [4, 0, 4] (World.init (fun _ => 0)) (by simp) (by decide) rfl).2.1
      [0, 4] (World.init (fun _ => 0)) (by intro a; simp; tauto) rfl⟩

/-- C4: when the interrupt-status register reads 0 the handler returns
`IRQ_NONE`, leaves every field of the controller and every register as it was,
and performs no register write: its only access is the read of the status
register. -/
theorem hardirq_status_zero (k : cec_tx_status) (w : World)
    (h : w.regs HDMI_IH_CEC_STAT0 % 256 = 0) :
    (dw_hdmi_cec_hardirq k w).1 = irqreturn_t.IRQ_NONE ∧
    (dw_hdmi_cec_hardirq k w).2.cec = w.cec ∧
    (dw_hdmi_cec_hardirq k w).2.regs = w.regs ∧
    (dw_hdmi_cec_hardirq k w).2.trace = w.trace ++ [Ev.rd HDMI_IH_CEC_STAT0] ∧
    writes (dw_hdmi_cec_hardirq k w).2.trace = writes w.trace := by
  simp [dw_hdmi_cec_hardirq, readb_relaxed, h, writes_append, writes]

/-- Witness for C4: a zero-initialised controller whose registers all read 0. -/
theorem hardirq_status_zero_witness :
    (World.init (fun _ => 0)).regs HDMI_IH_CEC_STAT0 % 256 = 0 ∧
    (dw_hdmi_cec_hardirq ⟨1, 4, 32⟩ (World.init (fun _ => 0))).1 = irqreturn_t.IRQ_NONE :=
  ⟨by decide, (hardirq_status_zero ⟨1, 4, 32⟩ (World.init (fun _ => 0)) (by decide)).1⟩

/-- C5: when the handler sees the end-of-message bit and the receive-length
register reads the byte `L`, it stores `rx_msg.len = min L 16`, hence at most
16, and sets `rx_done`.  Its whole access sequence is: read and acknowledge the
status, the accesses of the transmit-outcome chain, the read of the length,
the reads of the receive-data registers `RX_DATA0 + i` for `i < min L 16`, once
each and in order, and the write of the lock register; so the registers it
reads are the status register, the control register on a retry, the length
and exactly those `min L 16` data registers, and nothing at or beyond
`RX_DATA0 + 16`.  The next run of the threaded handler delivers one frame, of
that length.  In every state reached from the zero-initialised controller the
stored length and the length of every frame delivered so far are at most
16. -/
theorem rx_len_clamped (k : cec_tx_status) (w : World)
    (h : irq_stat w &&& CEC_STAT_EOM ≠ 0) :
    (dw_hdmi_cec_hardirq k w).2.cec.rx_msg.len = min (w.regs HDMI_CEC_RX_CNT % 256) 16 ∧
    (dw_hdmi_cec_hardirq k w).2.cec.rx_msg.len ≤ 16 ∧
    (dw_hdmi_cec_hardirq k w).2.cec.rx_done = true ∧
    (dw_hdmi_cec_hardirq k w).2.trace = w.trace ++
      (Ev.rd HDMI_IH_CEC_STAT0 :: Ev.wr (irq_stat w) HDMI_IH_CEC_STAT0 ::
        (if irq_stat w &&& CEC_STAT_ERROR_INIT ≠ 0 ∧ w.cec.retries ≠ 0 then
          [Ev.rd HDMI_CEC_CTRL,
           Ev.wr ((w.regs HDMI_CEC_CTRL % 256 ||| CEC_CTRL_START) % 256) HDMI_CEC_CTRL]
         else [])) ++
      (Ev.rd HDMI_CEC_RX_CNT ::
        (List.range (min (w.regs HDMI_CEC_RX_CNT % 256) 16)).map
          (fun i => Ev.rd (HDMI_CEC_RX_DATA0 + i))) ++
      [Ev.wr 0 HDMI_CEC_LOCK] ∧
    reads (dw_hdmi_cec_hardirq k w).2.trace = reads w.trace ++
      (HDMI_IH_CEC_STAT0 ::
        (if irq_stat w &&& CEC_STAT_ERROR_INIT ≠ 0 ∧ w.cec.retries ≠ 0 then [HDMI_CEC_CTRL]
         else [])) ++
      (HDMI_CEC_RX_CNT ::
        (List.range (min (w.regs HDMI_CEC_RX_CNT % 256) 16)).map
          (fun i => HDMI_CEC_RX_DATA0 + i)) ∧
    (∀ off ∈ (reads (dw_hdmi_cec_hardirq k w).2.trace).drop (reads w.trace).length,
      HDMI_CEC_RX_DATA0 ≤ off →
      off < HDMI_CEC_RX_DATA0 + min (w.regs HDMI_CEC_RX_CNT % 256) 16) ∧
    (∃ m : cec_msg, m.len = min (w.regs HDMI_CEC_RX_CNT % 256) 16 ∧
      received (dw_hdmi_cec_thread (dw_hdmi_cec_hardirq k w).2).2.trace =
        received w.trace ++ [m]) ∧
    (∀ (regs : Nat → Nat) (ops : List Op),
      (run k ops (World.init regs)).cec.rx_msg.len ≤ 16 ∧
      ∀ m ∈ received (run k ops (World.init regs)).trace, m.len ≤ 16) := by
  obtain ⟨-, e2, e3, -⟩ := hardirq_eom k w h
  have htr : (dw_hdmi_cec_hardirq k w).2.trace = w.trace ++
      (Ev.rd HDMI_IH_CEC_STAT0 :: Ev.wr (irq_stat w) HDMI_IH_CEC_STAT0 ::
        (if irq_stat w &&& CEC_STAT_ERROR_INIT ≠ 0 ∧ w.cec.retries ≠ 0 then
          [Ev.rd HDMI_CEC_CTRL,
           Ev.wr ((w.regs HDMI_CEC_CTRL % 256 ||| CEC_CTRL_START) % 256) HDMI_CEC_CTRL]
         else [])) ++
      (Ev.rd HDMI_CEC_RX_CNT ::
        (List.range (min (w.regs HDMI_CEC_RX_CNT % 256) 16)).map
          (fun i => Ev.rd (HDMI_CEC_RX_DATA0 + i))) ++
      [Ev.wr 0 HDMI_CEC_LOCK] := by
    rw [hardirq_trace k w (and_ne_zero_ne_zero h)]
    simp [rx_events, tx_events, h]
  have hrd : reads (dw_hdmi_cec_hardirq k w).2.trace = reads w.trace ++
      (HDMI_IH_CEC_STAT0 ::
        (if irq_stat w &&& CEC_STAT_ERROR_INIT ≠ 0 ∧ w.cec.retries ≠ 0 then [HDMI_CEC_CTRL]
         else [])) ++
      (HDMI_CEC_RX_CNT ::
        (List.range (min (w.regs HDMI_CEC_RX_CNT % 256) 16)).map
          (fun i => HDMI_CEC_RX_DATA0 + i)) := by
    rw [htr]
    simp only [reads_append, reads, reads_map_rd]
    split <;> simp [reads]
  refine ⟨e2, by rw [e2]; omega, e3, htr, hrd, ?_,
    ⟨(dw_hdmi_cec_hardirq k w).2.cec.rx_msg, e2, ?_⟩, ?_⟩
  · intro off hoff hlo
    rw [hrd, List.append_assoc, List.drop_left] at hoff
    simp only [List.cons_append, List.mem_cons, List.mem_append, List.mem_map,
      List.mem_range] at hoff
    rcases hoff with e | e | e | ⟨i, hi, e⟩
    · rw [e] at hlo; exact absurd hlo (by decide)
    · split at e
      · simp only [List.mem_cons, List.mem_nil_iff, or_false] at e
        rw [e] at hlo; exact absurd hlo (by decide)
      · simp at e
    · rw [e] at hlo; exact absurd hlo (by decide)
    · omega
  · rw [thread_eq]
    simp only [received_append, e3, if_true, (hardirq_frame k w).2.2]
    cases (dw_hdmi_cec_hardirq k w).2.cec.tx_done <;> simp [received]
  · intro regs ops
    exact run_induction k rx_inv (fun _ => True) (step_rx_inv k) ops (World.init regs)
      (fun _ _ => trivial) ⟨by simp [World.init, cec_zero], by simp [World.init, received]⟩

/-- Witness for C5: a receive length of 20 is stored and delivered as 16, and
the handler reads the status, the length and the 16 data registers
`0x7d20..0x7d2f`, nothing beyond. -/
theorem rx_len_clamped_witness :
    irq_stat (World.init regs_rx20) &&& CEC_STAT_EOM ≠ 0 ∧
    (World.init regs_rx20).regs HDMI_CEC_RX_CNT % 256 = 20 ∧
    (dw_hdmi_cec_hardirq ⟨1, 4, 32⟩ (World.init regs_rx20)).2.cec.rx_msg.len = 16 ∧
    reads (dw_hdmi_cec_hardirq ⟨1, 4, 32⟩ (World.init regs_rx20)).2.trace =
      [0x0106, 0x7d08, 0x7d20, 0x7d21, 0x7d22, 0x7d23, 0x7d24, 0x7d25, 0x7d26, 0x7d27,
       0x7d28, 0x7d29, 0x7d2a, 0x7d2b, 0x7d2c, 0x7d2d, 0x7d2e, 0x7d2f] ∧
    (received (dw_hdmi_cec_thread (dw_hdmi_cec_hardirq ⟨1, 4, 32⟩
      (World.init regs_rx20)).2).2.trace).map cec_msg.len = [16] :=
  ⟨by decide, by decide,
    (rx_len_clamped ⟨1, 4, 32⟩ (World.init regs_rx20) (by decide)).1.trans (by decide),
    (rx_len_clamped ⟨1, 4, 32⟩ (World.init regs_rx20) (by decide)).2.2.2.2.1.trans
      (by decide),
    by decide⟩

/-- C7: one run of the threaded handler delivers a transmit completion exactly
when `tx_done` was set, with `(tx_status, 0, 0, 0, 0)`; delivers the buffered
`rx_msg` exactly when `rx_done` was set; delivers the completion before the
frame when both were set; clears both flags and changes nothing else. -/
theorem thread_delivers (w : World) :
    (dw_hdmi_cec_thread w).1 = irqreturn_t.IRQ_HANDLED ∧
    (dw_hdmi_cec_thread w).2.trace =
      w.trace ++ (if w.cec.tx_done then [Ev.transmit_done w.cec.tx_status 0 0 0 0] else [])
              ++ (if w.cec.rx_done then [Ev.received_msg w.cec.rx_msg] else []) ∧
    (dw_hdmi_cec_thread w).2.cec.tx_done = false ∧
    (dw_hdmi_cec_thread w).2.cec.rx_done = false ∧
    (dw_hdmi_cec_thread w).2.cec.tx_status = w.cec.tx_status ∧
    (dw_hdmi_cec_thread w).2.cec.retries = w.cec.retries ∧
    (dw_hdmi_cec_thread w).2.cec.rx_msg = w.cec.rx_msg ∧
    (dw_hdmi_cec_thread w).2.cec.addresses = w.cec.addresses ∧
    (dw_hdmi_cec_thread w).2.regs = w.regs := by
  cases h1 : w.cec.tx_done <;> cases h2 : w.cec.rx_done <;>
    simp [dw_hdmi_cec_thread, h1, h2]

/-- C6: from any state `dw_hdmi_cec_enable(true)` leaves `cec->addresses = 0`,
writes 0 to `ADDR_L` and `ADDR_H`, and leaves the control and lock registers 0,
the polarity register `0x17` (init-error, NACK, EOM, done) and the mask and
mute registers `0xE8`: bits 0, 1, 2, 4 clear and bits 3, 5, 6, 7 set.  Hence
any run that starts with enable(true), later has enable(false) and ends with
enable(true) ends with the filter empty and exactly those four events
unmasked. -/
theorem enable_true_resets (k : cec_tx_status) (w : World) :
    (dw_hdmi_cec_enable true w).1 = 0 ∧
    (dw_hdmi_cec_enable true w).2.cec.addresses = 0 ∧
    (dw_hdmi_cec_enable true w).2.regs HDMI_CEC_ADDR_L = 0 ∧
    (dw_hdmi_cec_enable true w).2.regs HDMI_CEC_ADDR_H = 0 ∧
    (dw_hdmi_cec_enable true w).2.regs HDMI_CEC_CTRL = 0 ∧
    (dw_hdmi_cec_enable true w).2.regs HDMI_CEC_LOCK = 0 ∧
    (dw_hdmi_cec_enable true w).2.regs HDMI_CEC_POLARITY = 0x17 ∧
    (dw_hdmi_cec_enable true w).2.regs HDMI_CEC_MASK = 0xE8 ∧
    (dw_hdmi_cec_enable true w).2.regs HDMI_IH_MUTE_CEC_STAT0 = 0xE8 ∧
    (dw_hdmi_cec_enable true w).2.trace = w.trace ++
      [Ev.wr 0 HDMI_CEC_CTRL, Ev.wr 0xff HDMI_IH_CEC_STAT0, Ev.wr 0 HDMI_CEC_LOCK,
       Ev.wr 0 HDMI_CEC_ADDR_L, Ev.wr 0 HDMI_CEC_ADDR_H, Ev.hw_enable,
       Ev.wr 0x17 HDMI_CEC_POLARITY, Ev.wr 0xE8 HDMI_CEC_MASK,
       Ev.wr 0xE8 HDMI_IH_MUTE_CEC_STAT0] ∧
    (∀ i, i < 8 → (((dw_hdmi_cec_enable true w).2.regs HDMI_CEC_MASK).testBit i = false ↔
      i = 0 ∨ i = 1 ∨ i = 2 ∨ i = 4)) ∧
    (0x17 = CEC_STAT_ERROR_INIT ||| CEC_STAT_NACK ||| CEC_STAT_EOM ||| CEC_STAT_DONE) ∧
    (∀ (ops1 ops2 : List Op),
      (run k ([Op.enable true] ++ ops1 ++ [Op.enable false] ++ ops2 ++ [Op.enable true])
        w).cec.addresses = 0 ∧
      (run k ([Op.enable true] ++ ops1 ++ [Op.enable false] ++ ops2 ++ [Op.enable true])
        w).regs HDMI_CEC_ADDR_L = 0 ∧
      (run k ([Op.enable true] ++ ops1 ++ [Op.enable false] ++ ops2 ++ [Op.enable true])
        w).regs HDMI_CEC_ADDR_H = 0 ∧
      (run k ([Op.enable true] ++ ops1 ++ [Op.enable false] ++ ops2 ++ [Op.enable true])
        w).regs HDMI_CEC_MASK = 0xE8 ∧
      (run k ([Op.enable true] ++ ops1 ++ [Op.enable false] ++ ops2 ++ [Op.enable true])
        w).regs HDMI_IH_MUTE_CEC_STAT0 = 0xE8) := by
  have key : ∀ v : World,
      (dw_hdmi_cec_enable true v).2.cec.addresses = 0 ∧
      (dw_hdmi_cec_enable true v).2.regs HDMI_CEC_ADDR_L = 0 ∧
      (dw_hdmi_cec_enable true v).2.regs HDMI_CEC_ADDR_H = 0 ∧
      (dw_hdmi_cec_enable true v).2.regs HDMI_CEC_CTRL = 0 ∧
      (dw_hdmi_cec_enable true v).2.regs HDMI_CEC_LOCK = 0 ∧
      (dw_hdmi_cec_enable true v).2.regs HDMI_CEC_POLARITY = 0x17 ∧
      (dw_hdmi_cec_enable true v).2.regs HDMI_CEC_MASK = 0xE8 ∧
      (dw_hdmi_cec_enable true v).2.regs HDMI_IH_MUTE_CEC_STAT0 = 0xE8 := by
    intro v
    refine ⟨?_, ?_, ?_, ?_, ?_, ?_, ?_, ?_⟩ <;>
    simp [dw_hdmi_cec_enable, dw_hdmi_cec_log_addr, writeb_relaxed, store, not32,
      CEC_LOG_ADDR_INVALID, HDMI_CEC_ADDR_L, HDMI_CEC_ADDR_H, HDMI_CEC_CTRL, HDMI_CEC_LOCK,
      HDMI_CEC_POLARITY, HDMI_CEC_MASK, HDMI_IH_MUTE_CEC_STAT0, HDMI_IH_CEC_STAT0,
      CEC_STAT_ERROR_INIT, CEC_STAT_NACK, CEC_STAT_EOM, CEC_STAT_DONE, BIT]
  obtain ⟨h1, h2, h3, h4, h5, h6, h7, h8⟩ := key w
  refine ⟨rfl, h1, h2, h3, h4, h5, h6, h7, h8, ?_, ?_, by decide, ?_⟩
  · simp [dw_hdmi_cec_enable, dw_hdmi_cec_log_addr, writeb_relaxed, not32,
      CEC_LOG_ADDR_INVALID, CEC_STAT_ERROR_INIT, CEC_STAT_NACK, CEC_STAT_EOM, CEC_STAT_DONE,
      BIT]
  · rw [h7]; decide
  · intro ops1 ops2
    rw [run_append]
    obtain ⟨g1, g2, g3, -, -, -, g7, g8⟩ :=
      key (run k ([Op.enable true] ++ ops1 ++ [Op.enable false] ++ ops2) w)
    exact ⟨g1, g2, g3, g7, g8⟩

/-- C10, as stated, fails: after `dw_hdmi_cec_log_addr(16)` on a fresh
controller the bitmap is `0x18000`, `addresses / 256 = 0x180` does not fit a
byte, `ADDR_H` holds `0x80`, and `ADDR_H * 256 + ADDR_L = 0x8000`. -/
theorem log_addr_mirror_fails :
    ¬ ((dw_hdmi_cec_log_addr 16 (World.init (fun _ => 0))).2.regs HDMI_CEC_ADDR_H =
        (dw_hdmi_cec_log_addr 16 (World.init (fun _ => 0))).2.cec.addresses / 256 ∧
      (dw_hdmi_cec_log_addr 16 (World.init (fun _ => 0))).2.regs HDMI_CEC_ADDR_H * 256 +
        (dw_hdmi_cec_log_addr 16 (World.init (fun _ => 0))).2.regs HDMI_CEC_ADDR_L =
        (dw_hdmi_cec_log_addr 16 (World.init (fun _ => 0))).2.cec.addresses) := by
  decide

/-- C10, amended: after every call of `dw_hdmi_cec_log_addr`, for any argument
and prior state, `ADDR_L` holds `addresses mod 256` and `ADDR_H` holds
`(addresses div 256) mod 256`, written low byte first and then high byte; when
the argument is in `[0,15]` or the invalid sentinel and the prior bitmap is
below `2^16`, `addresses div 256` fits a byte, `ADDR_H` holds it and
`ADDR_H * 256 + ADDR_L = addresses`; for the sentinel both registers hold 0. -/
theorem log_addr_mirror (la : Nat) (w : World) :
    (dw_hdmi_cec_log_addr la w).2.regs HDMI_CEC_ADDR_L =
      (dw_hdmi_cec_log_addr la w).2.cec.addresses % 256 ∧
    (dw_hdmi_cec_log_addr la w).2.regs HDMI_CEC_ADDR_H =
      (dw_hdmi_cec_log_addr la w).2.cec.addresses / 256 % 256 ∧
    (dw_hdmi_cec_log_addr la w).2.trace = w.trace ++
      [Ev.wr ((dw_hdmi_cec_log_addr la w).2.cec.addresses % 256) HDMI_CEC_ADDR_L,
       Ev.wr ((dw_hdmi_cec_log_addr la w).2.cec.addresses / 256 % 256) HDMI_CEC_ADDR_H] ∧
    ((la ≤ 15 ∨ la = CEC_LOG_ADDR_INVALID) → w.cec.addresses < 2 ^ 16 →
      (dw_hdmi_cec_log_addr la w).2.cec.addresses / 256 < 256 ∧
      (dw_hdmi_cec_log_addr la w).2.regs HDMI_CEC_ADDR_H =
        (dw_hdmi_cec_log_addr la w).2.cec.addresses / 256 ∧
      (dw_hdmi_cec_log_addr la w).2.regs HDMI_CEC_ADDR_H * 256 +
        (dw_hdmi_cec_log_addr la w).2.regs HDMI_CEC_ADDR_L =
        (dw_hdmi_cec_log_addr la w).2.cec.addresses) ∧
    (la = CEC_LOG_ADDR_INVALID →
      (dw_hdmi_cec_log_addr la w).2.regs HDMI_CEC_ADDR_L = 0 ∧
      (dw_hdmi_cec_log_addr la w).2.regs HDMI_CEC_ADDR_H = 0) := by
  have hregs : (dw_hdmi_cec_log_addr la w).2.regs HDMI_CEC_ADDR_L =
      (dw_hdmi_cec_log_addr la w).2.cec.addresses % 256 ∧
      (dw_hdmi_cec_log_addr la w).2.regs HDMI_CEC_ADDR_H =
      (dw_hdmi_cec_log_addr la w).2.cec.addresses / 256 % 256 := by
    simp [dw_hdmi_cec_log_addr, writeb_relaxed, store, and_255, shr_8, HDMI_CEC_ADDR_L,
      HDMI_CEC_ADDR_H]
  refine ⟨hregs.1, hregs.2, ?_, ?_, ?_⟩
  · simp [dw_hdmi_cec_log_addr, writeb_relaxed, and_255, shr_8]
  · intro hla hw
    have hlt : (dw_hdmi_cec_log_addr la w).2.cec.addresses < 2 ^ 16 := by
      rcases hla with h | h
      · exact (log_addr_claim la w h hw).2
      · rw [h, log_addr_invalid]; norm_num
    rw [hregs.1, hregs.2]
    omega
  · intro h
    rw [hregs.1, hregs.2, h, log_addr_invalid]
    decide

/-- Witness for the amended C10: claiming address 4 on a fresh controller. -/
theorem log_addr_mirror_witness :
    ((4 : Nat) ≤ 15 ∨ 4 = CEC_LOG_ADDR_INVALID) ∧
    (World.init (fun _ => 0)).cec.addresses < 2 ^ 16 ∧
    (dw_hdmi_cec_log_addr 4 (World.init (fun _ => 0))).2.regs HDMI_CEC_ADDR_H * 256 +
      (dw_hdmi_cec_log_addr 4 (World.init (fun _ => 0))).2.regs HDMI_CEC_ADDR_L =
      (dw_hdmi_cec_log_addr 4 (World.init (fun _ => 0))).2.cec.addresses ∧
    (dw_hdmi_cec_log_addr CEC_LOG_ADDR_INVALID (World.init (fun _ => 7))).2.regs
      HDMI_CEC_ADDR_H = 0 :=
  ⟨Or.inl (by decide), by decide,
    ((log_addr_mirror 4 (World.init (fun _ => 0))).2.2.2.1 (Or.inl (by decide))
      (by decide)).2.2,
    ((log_addr_mirror CEC_LOG_ADDR_INVALID (World.init (fun _ => 7))).2.2.2.2 rfl).2⟩

/-- C8: in every state reached from the zero-initialised controller by calls
of `dw_hdmi_cec_log_addr` (address in `[0,14]` or the invalid sentinel),
`dw_hdmi_cec_transmit`, `dw_hdmi_cec_enable`, `dw_hdmi_cec_hardirq` and
`dw_hdmi_cec_thread`, with the hardware free to change registers in between,
bit 15 of `cec->addresses` is set if and only if one of bits 0..14 is set, and
no bit above 15 is set. -/
theorem addresses_invariant (k : cec_tx_status) (regs : Nat → Nat) (ops : List Op)
    (h : ∀ o ∈ ops, o.addr_ok) :
    ((run k ops (World.init regs)).cec.addresses.testBit 15 = true ↔
      ∃ i, i < 15 ∧ (run k ops (World.init regs)).cec.addresses.testBit i = true) ∧
    (∀ i, 15 < i → (run k ops (World.init regs)).cec.addresses.testBit i = false) ∧
    (run k ops (World.init regs)).cec.addresses < 2 ^ 16 := by
  have hinv := run_induction k (fun w => addr_inv w.cec.addresses) Op.addr_ok
    (step_addr_inv k) ops (World.init regs) h addr_inv_zero
  refine ⟨hinv.2, ?_, hinv.1⟩
  intro i hi
  apply Nat.testBit_lt_two_pow
  exact lt_of_lt_of_le hinv.1 (Nat.pow_le_pow_right (by decide) (by omega))

/-- Witness for C8: claim 3, disable, claim 0 gives `0x8009`. -/
theorem addresses_invariant_witness :
    (∀ o ∈ [Op.log_addr 3, Op.enable false, Op.log_addr 0], o.addr_ok) ∧
    (run ⟨1, 4, 32⟩ [Op.log_addr 3, Op.enable false, Op.log_addr 0]
      (World.init (fun _ => 0))).cec.addresses = 0x8009 ∧
    ((run ⟨1, 4, 32⟩ [Op.log_addr 3, Op.enable false, Op.log_addr 0]
        (World.init (fun _ => 0))).cec.addresses.testBit 15 = true ↔
      ∃ i, i < 15 ∧ (run ⟨1, 4, 32⟩ [Op.log_addr 3, Op.enable false, Op.log_addr 0]
        (World.init (fun _ => 0))).cec.addresses.testBit i = true) :=
  ⟨by simp [Op.addr_ok], by decide,
    (addresses_invariant ⟨1, 4, 32⟩ (fun _ => 0) [Op.log_addr 3, Op.enable false, Op.log_addr 0]
      (by simp [Op.addr_ok])).1⟩

/-- C9: in every state reached from the zero-initialised controller by any
sequence of driver calls and hardware register changes, `tx_done = true`
implies that `tx_status` is `CEC_TX_STATUS_OK`, `CEC_TX_STATUS_NACK` or
`CEC_TX_STATUS_MAX_RETRIES`; and every completion `dw_hdmi_cec_thread` has
delivered carries one of these three, with all counters 0. -/
theorem tx_done_status (k : cec_tx_status) (regs : Nat → Nat) (ops : List Op) :
    ((run k ops (World.init regs)).cec.tx_done = true →
      (run k ops (World.init regs)).cec.tx_status = k.CEC_TX_STATUS_OK ∨
      (run k ops (World.init regs)).cec.tx_status = k.CEC_TX_STATUS_NACK ∨
      (run k ops (World.init regs)).cec.tx_status = k.CEC_TX_STATUS_MAX_RETRIES) ∧
    (∀ c ∈ completions (run k ops (World.init regs)).trace,
      (c.1 = k.CEC_TX_STATUS_OK ∨ c.1 = k.CEC_TX_STATUS_NACK ∨
        c.1 = k.CEC_TX_STATUS_MAX_RETRIES) ∧ c.2 = (0, 0, 0, 0)) :=
  run_induction k (tx_inv k) (fun _ => True) (step_tx_inv k) ops (World.init regs)
    (fun _ _ => trivial) ⟨by simp [World.init, cec_zero], by simp [World.init, completions]⟩

/-- C11, as stated, fails: on a controller that has claimed address 0,
`dw_hdmi_cec_enable(false)` leaves `cec->addresses = 0x8001`, `ADDR_L = 1` and
`ADDR_H = 0x80`; only the mask register is `0xFF`. -/
theorem enable_false_clears_filter_fails :
    ¬ ((dw_hdmi_cec_enable false world_claimed).2.cec.addresses = 0 ∧
       (dw_hdmi_cec_enable false world_claimed).2.regs HDMI_CEC_ADDR_L = 0 ∧
       (dw_hdmi_cec_enable false world_claimed).2.regs HDMI_CEC_ADDR_H = 0 ∧
       (dw_hdmi_cec_enable false world_claimed).2.regs HDMI_CEC_MASK = 0xFF) := by
  decide

/-- C11, amended: after `dw_hdmi_cec_enable(false)` from any state all
interrupts are masked (mask register `0xFF`, mute register `0xFF`, polarity
0); `cec->addresses`, like every other field of the controller, and the filter
registers `ADDR_L` and `ADDR_H` are left as they were; the address filter is
cleared by the next `dw_hdmi_cec_enable(true)`. -/
theorem enable_false_masks (w : World) :
    (dw_hdmi_cec_enable false w).2.regs HDMI_CEC_MASK = 0xFF ∧
    (dw_hdmi_cec_enable false w).2.regs HDMI_IH_MUTE_CEC_STAT0 = 0xFF ∧
    (dw_hdmi_cec_enable false w).2.regs HDMI_CEC_POLARITY = 0 ∧
    (dw_hdmi_cec_enable false w).2.cec = w.cec ∧
    (dw_hdmi_cec_enable false w).2.regs HDMI_CEC_ADDR_L = w.regs HDMI_CEC_ADDR_L ∧
    (dw_hdmi_cec_enable false w).2.regs HDMI_CEC_ADDR_H = w.regs HDMI_CEC_ADDR_H ∧
    (dw_hdmi_cec_enable true (dw_hdmi_cec_enable false w).2).2.cec.addresses = 0 ∧
    (dw_hdmi_cec_enable true (dw_hdmi_cec_enable false w).2).2.regs HDMI_CEC_ADDR_L = 0 ∧
    (dw_hdmi_cec_enable true (dw_hdmi_cec_enable false w).2).2.regs HDMI_CEC_ADDR_H = 0 := by
  refine ⟨?_, ?_, ?_, ?_, ?_, ?_, ?_, ?_, ?_⟩ <;>
  simp [dw_hdmi_cec_enable, dw_hdmi_cec_log_addr, writeb_relaxed, store, not32,
    CEC_LOG_ADDR_INVALID, HDMI_CEC_ADDR_L, HDMI_CEC_ADDR_H, HDMI_CEC_CTRL, HDMI_CEC_LOCK,
    HDMI_CEC_POLARITY, HDMI_CEC_MASK, HDMI_IH_MUTE_CEC_STAT0, HDMI_IH_CEC_STAT0,
    CEC_STAT_ERROR_INIT, CEC_STAT_NACK, CEC_STAT_EOM, CEC_STAT_DONE, BIT]

/-- C15: for a frame of at most 16 bytes and any prior state,
`dw_hdmi_cec_transmit(attempts, signal_free_time, frame)` returns 0, sets
`retries = attempts` and no other field, leaves transmit-data register `i`
equal to frame byte `i` for `i < len`, the length register equal to `len` and
the control register `0x03` (normal | start); it writes the data bytes in
order, then the length, then control, and nothing else; no other register
changes; the result does not depend on `signal_free_time`. -/
theorem transmit_effect (attempts sft : Nat) (frame : cec_msg) (w : World)
    (ha : attempts ≤ 255) (hlen : frame.len ≤ CEC_MAX_MSG_SIZE)
    (hb : ∀ i, i < frame.len → frame.msg i < 256) :
    (dw_hdmi_cec_transmit attempts sft frame w).1 = 0 ∧
    (dw_hdmi_cec_transmit attempts sft frame w).2.cec =
      { w.cec with retries := (attempts : Int) } ∧
    (∀ i, i < frame.len →
      (dw_hdmi_cec_transmit attempts sft frame w).2.regs (HDMI_CEC_TX_DATA0 + i) =
        frame.msg i) ∧
    (dw_hdmi_cec_transmit attempts sft frame w).2.regs HDMI_CEC_TX_CNT = frame.len ∧
    (dw_hdmi_cec_transmit attempts sft frame w).2.regs HDMI_CEC_CTRL = 0x03 ∧
    (0x03 = CEC_CTRL_NORMAL ||| CEC_CTRL_START) ∧
    (dw_hdmi_cec_transmit attempts sft frame w).2.trace = w.trace ++
      (List.range frame.len).map (fun i => Ev.wr (frame.msg i) (HDMI_CEC_TX_DATA0 + i)) ++
      [Ev.wr frame.len HDMI_CEC_TX_CNT, Ev.wr 0x03 HDMI_CEC_CTRL] ∧
    (∀ r, ¬ (HDMI_CEC_TX_DATA0 ≤ r ∧ r < HDMI_CEC_TX_DATA0 + frame.len) →
      r ≠ HDMI_CEC_TX_CNT → r ≠ HDMI_CEC_CTRL →
      (dw_hdmi_cec_transmit attempts sft frame w).2.regs r = w.regs r) ∧
    (∀ sft2, dw_hdmi_cec_transmit attempts sft2 frame w =
      dw_hdmi_cec_transmit attempts sft frame w) := by
  have h16 : frame.len ≤ 16 := hlen
  have hl : frame.len % 256 = frame.len := Nat.mod_eq_of_lt (by omega)
  have hat : attempts % 256 = attempts := Nat.mod_eq_of_lt (by omega)
  have hmap : (List.range frame.len).map
        (fun i => Ev.wr (frame.msg i % 256) (HDMI_CEC_TX_DATA0 + i)) =
      (List.range frame.len).map (fun i => Ev.wr (frame.msg i) (HDMI_CEC_TX_DATA0 + i)) := by
    apply List.map_congr_left
    intro i hi
    rw [Nat.mod_eq_of_lt (hb i (List.mem_range.1 hi))]
  rw [transmit_eq, hl, hat, hmap]
  refine ⟨rfl, rfl, ?_, ?_, ?_, by decide, rfl, ?_, ?_⟩
  · intro i hi
    have h1 : HDMI_CEC_TX_DATA0 + i ≠ HDMI_CEC_CTRL := by
      simp [HDMI_CEC_TX_DATA0, HDMI_CEC_CTRL]; omega
    have h2 : HDMI_CEC_TX_DATA0 + i ≠ HDMI_CEC_TX_CNT := by
      simp [HDMI_CEC_TX_DATA0, HDMI_CEC_TX_CNT]; omega
    simp [store, h1, h2, hi, Nat.mod_eq_of_lt (hb i hi)]
  · simp [store, HDMI_CEC_TX_CNT, HDMI_CEC_CTRL]
  · simp [store]
  · intro r h1 h2 h3
    simp [store, h1, h2, h3]
  · intro sft2
    rw [transmit_eq, hl, hat, hmap]

/-- Witness for C15: the ping frame with one attempt on a fresh controller. -/
theorem transmit_effect_witness :
    (1 : Nat) ≤ 255 ∧ ping.len ≤ CEC_MAX_MSG_SIZE ∧ (∀ i, i < ping.len → ping.msg i < 256) ∧
    (dw_hdmi_cec_transmit 1 0 ping (World.init (fun _ => 0))).2.regs HDMI_CEC_TX_DATA0 = 0x10 ∧
    (dw_hdmi_cec_transmit 1 0 ping (World.init (fun _ => 0))).2.regs HDMI_CEC_TX_CNT = 1 ∧
    (dw_hdmi_cec_transmit 1 0 ping (World.init (fun _ => 0))).2.regs HDMI_CEC_CTRL = 0x03 :=
  ⟨by decide, by decide, by decide,
    (transmit_effect 1 0 ping (World.init (fun _ => 0)) (by decide) (by decide)
      (by decide)).2.2.1 0 (by decide),
    (transmit_effect 1 0 ping (World.init (fun _ => 0)) (by decide) (by decide)
      (by decide)).2.2.2.1,
    (transmit_effect 1 0 ping (World.init (fun _ => 0)) (by decide) (by decide)
      (by decide)).2.2.2.2.1⟩

/-- C17: `dw_hdmi_cec_enable(false)` returns 0 and does exactly this, in this
order: write `0xFF` to the mask register, `0xFF` to the mute register, 0 to
the polarity register, call the disable callback.  `dw_hdmi_cec_enable(true)`
returns 0 and calls the enable callback exactly once, after the writes that
reset control, status, lock and the address filter and before the writes of
polarity, mask and mute.  Neither calls the other callback. -/
theorem enable_callback_order (w : World) :
    (dw_hdmi_cec_enable false w).1 = 0 ∧
    (dw_hdmi_cec_enable false w).2.trace = w.trace ++
      [Ev.wr 0xff HDMI_CEC_MASK, Ev.wr 0xff HDMI_IH_MUTE_CEC_STAT0,
       Ev.wr 0 HDMI_CEC_POLARITY, Ev.hw_disable] ∧
    (dw_hdmi_cec_enable true w).1 = 0 ∧
    (dw_hdmi_cec_enable true w).2.trace = w.trace ++
      [Ev.wr 0 HDMI_CEC_CTRL, Ev.wr 0xff HDMI_IH_CEC_STAT0, Ev.wr 0 HDMI_CEC_LOCK,
       Ev.wr 0 HDMI_CEC_ADDR_L, Ev.wr 0 HDMI_CEC_ADDR_H, Ev.hw_enable,
       Ev.wr 0x17 HDMI_CEC_POLARITY, Ev.wr 0xE8 HDMI_CEC_MASK,
       Ev.wr 0xE8 HDMI_IH_MUTE_CEC_STAT0] := by
  refine ⟨rfl, ?_, rfl, ?_⟩ <;>
  simp [dw_hdmi_cec_enable, dw_hdmi_cec_log_addr, writeb_relaxed, not32,
    CEC_LOG_ADDR_INVALID, CEC_STAT_ERROR_INIT, CEC_STAT_NACK, CEC_STAT_EOM, CEC_STAT_DONE,
    BIT]

/-- C12: the handler takes at most one branch of the transmit-outcome group,
by priority init-error, done, NACK.  With the init-error bit set it retries
when retries are left (start re-asserted on the control register, one retry
used up, `tx_status` and `tx_done` untouched) and reports max-retries when none
is left, whatever the done and NACK bits; otherwise with the done bit set it
reports ok, whatever the NACK bit; otherwise with the NACK bit set it reports
nack; otherwise `tx_status`, `tx_done` and `retries` are unchanged. -/
theorem hardirq_tx_priority (k : cec_tx_status) (w : World) :
    (irq_stat w &&& CEC_STAT_ERROR_INIT ≠ 0 → w.cec.retries ≠ 0 →
      (dw_hdmi_cec_hardirq k w).2.cec.retries = w.cec.retries - 1 ∧
      (dw_hdmi_cec_hardirq k w).2.cec.tx_done = w.cec.tx_done ∧
      (dw_hdmi_cec_hardirq k w).2.cec.tx_status = w.cec.tx_status ∧
      ctrl_writes (dw_hdmi_cec_hardirq k w).2.trace = ctrl_writes w.trace ++
        [(w.regs HDMI_CEC_CTRL % 256 ||| CEC_CTRL_START) % 256]) ∧
    (irq_stat w &&& CEC_STAT_ERROR_INIT ≠ 0 → w.cec.retries = 0 →
      (dw_hdmi_cec_hardirq k w).2.cec.retries = 0 ∧
      (dw_hdmi_cec_hardirq k w).2.cec.tx_done = true ∧
      (dw_hdmi_cec_hardirq k w).2.cec.tx_status = k.CEC_TX_STATUS_MAX_RETRIES ∧
      ctrl_writes (dw_hdmi_cec_hardirq k w).2.trace = ctrl_writes w.trace) ∧
    (irq_stat w &&& CEC_STAT_ERROR_INIT = 0 → irq_stat w &&& CEC_STAT_DONE ≠ 0 →
      (dw_hdmi_cec_hardirq k w).2.cec.retries = w.cec.retries ∧
      (dw_hdmi_cec_hardirq k w).2.cec.tx_done = true ∧
      (dw_hdmi_cec_hardirq k w).2.cec.tx_status = k.CEC_TX_STATUS_OK ∧
      ctrl_writes (dw_hdmi_cec_hardirq k w).2.trace = ctrl_writes w.trace) ∧
    (irq_stat w &&& CEC_STAT_ERROR_INIT = 0 → irq_stat w &&& CEC_STAT_DONE = 0 →
      irq_stat w &&& CEC_STAT_NACK ≠ 0 →
      (dw_hdmi_cec_hardirq k w).2.cec.retries = w.cec.retries ∧
      (dw_hdmi_cec_hardirq k w).2.cec.tx_done = true ∧
      (dw_hdmi_cec_hardirq k w).2.cec.tx_status = k.CEC_TX_STATUS_NACK ∧
      ctrl_writes (dw_hdmi_cec_hardirq k w).2.trace = ctrl_writes w.trace) ∧
    (irq_stat w &&& CEC_STAT_ERROR_INIT = 0 → irq_stat w &&& CEC_STAT_DONE = 0 →
      irq_stat w &&& CEC_STAT_NACK = 0 →
      (dw_hdmi_cec_hardirq k w).2.cec.retries = w.cec.retries ∧
      (dw_hdmi_cec_hardirq k w).2.cec.tx_done = w.cec.tx_done ∧
      (dw_hdmi_cec_hardirq k w).2.cec.tx_status = w.cec.tx_status ∧
      ctrl_writes (dw_hdmi_cec_hardirq k w).2.trace = ctrl_writes w.trace) := by
  refine ⟨fun hs hr => hardirq_retry k w hs hr, fun hs hr => ?_, fun hs hd => ?_,
    fun hs hd hn => hardirq_nack k w hs hd hn, fun hs hd hn => hardirq_idle k w hs hd hn⟩
  · exact (hardirq_max k w hs hr).2
  · exact (hardirq_done k w hs hd).2

/-- Witness for C12: with init-error, done and NACK all set and no retries
left the outcome is max-retries; with retries left it is a retry. -/
theorem hardirq_tx_priority_witness :
    irq_stat (World.init regs_all_tx) &&& CEC_STAT_ERROR_INIT ≠ 0 ∧
    irq_stat (World.init regs_all_tx) &&& CEC_STAT_DONE ≠ 0 ∧
    irq_stat (World.init regs_all_tx) &&& CEC_STAT_NACK ≠ 0 ∧
    (World.init regs_all_tx).cec.retries = 0 ∧
    (dw_hdmi_cec_hardirq ⟨1, 4, 32⟩ (World.init regs_all_tx)).2.cec.tx_status = 32 ∧
    (dw_hdmi_cec_hardirq ⟨1, 4, 32⟩ (World.init regs_all_tx)).2.cec.tx_done = true :=
  ⟨by decide, by decide, by decide, rfl,
    ((hardirq_tx_priority ⟨1, 4, 32⟩ (World.init regs_all_tx)).2.1 (by decide) rfl).2.2.1,
    ((hardirq_tx_priority ⟨1, 4, 32⟩ (World.init regs_all_tx)).2.1 (by decide) rfl).2.1⟩

/-- C13: for a nonzero status the handler returns `IRQ_WAKE_THREAD` exactly
when this invocation assigns true to `tx_done` or to `rx_done`, and
`IRQ_HANDLED` otherwise; a flag that is assigned is true afterwards, a flag
that is not assigned keeps its value.  In particular an init-error with
retries left and end-of-message clear, and any nonzero status whose set bits
lie only among bits 3, 5 and 6, return `IRQ_HANDLED` and change neither
flag. -/
theorem hardirq_return (k : cec_tx_status) (w : World) (h : irq_stat w ≠ 0) :
    ((dw_hdmi_cec_hardirq k w).1 = irqreturn_t.IRQ_WAKE_THREAD ↔
      tx_done_assigned (irq_stat w) w.cec.retries = true ∨
      rx_done_assigned (irq_stat w) = true) ∧
    ((dw_hdmi_cec_hardirq k w).1 ≠ irqreturn_t.IRQ_WAKE_THREAD →
      (dw_hdmi_cec_hardirq k w).1 = irqreturn_t.IRQ_HANDLED) ∧
    (tx_done_assigned (irq_stat w) w.cec.retries = true →
      (dw_hdmi_cec_hardirq k w).2.cec.tx_done = true) ∧
    (tx_done_assigned (irq_stat w) w.cec.retries = false →
      (dw_hdmi_cec_hardirq k w).2.cec.tx_done = w.cec.tx_done) ∧
    (rx_done_assigned (irq_stat w) = true →
      (dw_hdmi_cec_hardirq k w).2.cec.rx_done = true) ∧
    (rx_done_assigned (irq_stat w) = false →
      (dw_hdmi_cec_hardirq k w).2.cec.rx_done = w.cec.rx_done) ∧
    (irq_stat w &&& CEC_STAT_ERROR_INIT ≠ 0 → w.cec.retries ≠ 0 →
      irq_stat w &&& CEC_STAT_EOM = 0 →
      (dw_hdmi_cec_hardirq k w).1 = irqreturn_t.IRQ_HANDLED ∧
      (dw_hdmi_cec_hardirq k w).2.cec.tx_done = w.cec.tx_done ∧
      (dw_hdmi_cec_hardirq k w).2.cec.rx_done = w.cec.rx_done) ∧
    ((∀ i, (irq_stat w).testBit i = true → i = 3 ∨ i = 5 ∨ i = 6) →
      (dw_hdmi_cec_hardirq k w).1 = irqreturn_t.IRQ_HANDLED ∧
      (dw_hdmi_cec_hardirq k w).2.cec.tx_done = w.cec.tx_done ∧
      (dw_hdmi_cec_hardirq k w).2.cec.rx_done = w.cec.rx_done) := by
  obtain ⟨f1, f2, f3⟩ := hardirq_ret_flags k w h
  have hno : tx_done_assigned (irq_stat w) w.cec.retries = false →
      rx_done_assigned (irq_stat w) = false →
      (dw_hdmi_cec_hardirq k w).1 = irqreturn_t.IRQ_HANDLED ∧
      (dw_hdmi_cec_hardirq k w).2.cec.tx_done = w.cec.tx_done ∧
      (dw_hdmi_cec_hardirq k w).2.cec.rx_done = w.cec.rx_done := by
    intro a b
    rw [f1, f2, f3, a, b]; simp
  refine ⟨?_, ?_, ?_, ?_, ?_, ?_, ?_, ?_⟩
  · rw [f1]; split <;> simp_all
  · rw [f1]; split <;> simp_all
  · intro a; rw [f2, a]; simp
  · intro a; rw [f2, a]; simp
  · intro a; rw [f3, a]; simp
  · intro a; rw [f3, a]; simp
  · intro hs hr he
    exact hno (by simp [tx_done_assigned, hs, hr]) (by simp [rx_done_assigned, he])
  · intro hb
    have hbit : ∀ n, n ≠ 3 → n ≠ 5 → n ≠ 6 → irq_stat w &&& BIT n = 0 := by
      intro n h3 h5 h6
      apply and_bit_eq_zero
      cases hv : (irq_stat w).testBit n
      · rfl
      · rcases hb n hv with e | e | e <;> contradiction
    have h0 : irq_stat w &&& CEC_STAT_DONE = 0 := hbit 0 (by decide) (by decide) (by decide)
    have h1 : irq_stat w &&& CEC_STAT_EOM = 0 := hbit 1 (by decide) (by decide) (by decide)
    have h2 : irq_stat w &&& CEC_STAT_NACK = 0 := hbit 2 (by decide) (by decide) (by decide)
    have h4 : irq_stat w &&& CEC_STAT_ERROR_INIT = 0 :=
      hbit 4 (by decide) (by decide) (by decide)
    exact hno (by simp [tx_done_assigned, h0, h2, h4]) (by simp [rx_done_assigned, h1])


/-- Witness for C13: init-error, done and NACK with no retries left wakes the
thread; an init-error alone with one retry left is only handled. -/
theorem hardirq_return_witness :
    irq_stat (World.init regs_all_tx) ≠ 0 ∧
    (dw_hdmi_cec_hardirq ⟨1, 4, 32⟩ (World.init regs_all_tx)).1 =
      irqreturn_t.IRQ_WAKE_THREAD ∧
    irq_stat (dw_hdmi_cec_transmit 1 0 ping (World.init regs_init_error)).2 ≠ 0 ∧
    (dw_hdmi_cec_hardirq ⟨1, 4, 32⟩
      (dw_hdmi_cec_transmit 1 0 ping (World.init regs_init_error)).2).1 =
      irqreturn_t.IRQ_HANDLED :=
  ⟨by decide,
    (hardirq_return ⟨1, 4, 32⟩ (World.init regs_all_tx) (by decide)).1.2
      (Or.inl (by decide)),
    by decide,
    ((hardirq_return ⟨1, 4, 32⟩ (dw_hdmi_cec_transmit 1 0 ping (World.init regs_init_error)).2
      (by decide)).2.2.2.2.2.2.1 (by decide) (by decide) (by decide)).1⟩

/-- C14: for a nonzero status with the end-of-message bit, whatever the
transmit-outcome chain did, with `n = min(receive length, 16)` the handler
leaves `rx_msg.msg[i]` equal to receive-data register `i` for `i < n`,
`rx_msg.len = n`, the lock register 0 (its write is the last access) and
`rx_done = true`; `tx_status`, `tx_done` and `retries` are as the chain left
them.  Without the end-of-message bit `rx_msg`, `rx_done` and the lock
register are unchanged and the lock register is not written. -/
theorem hardirq_capture (k : cec_tx_status) (w : World) (h : irq_stat w ≠ 0) :
    (irq_stat w &&& CEC_STAT_EOM ≠ 0 →
      (dw_hdmi_cec_hardirq k w).2.cec.rx_msg.len = min (w.regs HDMI_CEC_RX_CNT % 256) 16 ∧
      (∀ i, i < min (w.regs HDMI_CEC_RX_CNT % 256) 16 →
        (dw_hdmi_cec_hardirq k w).2.cec.rx_msg.msg i =
          w.regs (HDMI_CEC_RX_DATA0 + i) % 256) ∧
      (dw_hdmi_cec_hardirq k w).2.regs HDMI_CEC_LOCK = 0 ∧
      (dw_hdmi_cec_hardirq k w).2.trace = w.trace ++
        (Ev.rd HDMI_IH_CEC_STAT0 :: Ev.wr (irq_stat w) HDMI_IH_CEC_STAT0 ::
          tx_events (irq_stat w) w) ++
        (Ev.rd HDMI_CEC_RX_CNT ::
          (List.range (min (w.regs HDMI_CEC_RX_CNT % 256) 16)).map
            (fun i => Ev.rd (HDMI_CEC_RX_DATA0 + i))) ++
        [Ev.wr 0 HDMI_CEC_LOCK] ∧
      (dw_hdmi_cec_hardirq k w).2.cec.rx_done = true) ∧
    ((dw_hdmi_cec_hardirq k w).2.cec.tx_status =
        (hardirq_tx k (irq_stat w) (acked w)).2.cec.tx_status ∧
      (dw_hdmi_cec_hardirq k w).2.cec.tx_done =
        (hardirq_tx k (irq_stat w) (acked w)).2.cec.tx_done ∧
      (dw_hdmi_cec_hardirq k w).2.cec.retries =
        (hardirq_tx k (irq_stat w) (acked w)).2.cec.retries) ∧
    (irq_stat w &&& CEC_STAT_EOM = 0 →
      (dw_hdmi_cec_hardirq k w).2.cec.rx_msg = w.cec.rx_msg ∧
      (dw_hdmi_cec_hardirq k w).2.cec.rx_done = w.cec.rx_done ∧
      (dw_hdmi_cec_hardirq k w).2.regs HDMI_CEC_LOCK = w.regs HDMI_CEC_LOCK ∧
      (dw_hdmi_cec_hardirq k w).2.trace = w.trace ++
        (Ev.rd HDMI_IH_CEC_STAT0 :: Ev.wr (irq_stat w) HDMI_IH_CEC_STAT0 ::
          tx_events (irq_stat w) w)) := by
  refine ⟨?_, hardirq_tx_side k w h, ?_⟩
  · intro he
    obtain ⟨m1, m2⟩ := hardirq_eom_msg k w he
    refine ⟨by rw [m1], ?_, m2, ?_, (hardirq_eom k w he).2.2.1⟩
    · intro i hi
      rw [m1]; simp [hi]
    · rw [hardirq_trace k w h]; simp [rx_events, he]
  · intro he
    obtain ⟨n1, n2, n3⟩ := hardirq_no_eom k w he
    refine ⟨n1, n2, n3, ?_⟩
    rw [hardirq_trace k w h]; simp [rx_events, he]

/-- Witness for C14: a 16-byte frame is captured on a fresh controller. -/
theorem hardirq_capture_witness :
    irq_stat (World.init regs_rx16) ≠ 0 ∧
    irq_stat (World.init regs_rx16) &&& CEC_STAT_EOM ≠ 0 ∧
    (dw_hdmi_cec_hardirq ⟨1, 4, 32⟩ (World.init regs_rx16)).2.cec.rx_msg.len = 16 ∧
    (dw_hdmi_cec_hardirq ⟨1, 4, 32⟩ (World.init regs_rx16)).2.cec.rx_msg.msg 5 = 0xA5 ∧
    (dw_hdmi_cec_hardirq ⟨1, 4, 32⟩ (World.init regs_rx16)).2.cec.rx_done = true :=
  ⟨by decide, by decide,
    ((hardirq_capture ⟨1, 4, 32⟩ (World.init regs_rx16) (by decide)).1 (by decide)).1.trans
      (by decide),
    (((hardirq_capture ⟨1, 4, 32⟩ (World.init regs_rx16) (by decide)).1 (by decide)).2.1 5
      (by decide)).trans (by decide),
    ((hardirq_capture ⟨1, 4, 32⟩ (World.init regs_rx16) (by decide)).1
      (by decide)).2.2.2.2⟩

/-- C16: for a nonzero status `s` the handler, after reading the status
register, writes exactly `s` back to it before anything else.  In the handler
with its assignments recorded in program order (which is the handler: same
result, same world, same accesses) the first two steps are the read of the
status register and the write of `s` to it; so every assignment to a field of
the controller (`retries`, `tx_status`, `tx_done`, `rx_msg`, `rx_done`) and
every other register write (the retry write to the control register, the
write to the lock register) has the acknowledge before it. -/
theorem hardirq_ack_first (k : cec_tx_status) (w : World) (h : irq_stat w ≠ 0) :
    (dw_hdmi_cec_hardirq k w).2.trace = w.trace ++
      (Ev.rd HDMI_IH_CEC_STAT0 :: Ev.wr (irq_stat w) HDMI_IH_CEC_STAT0 ::
        (tx_events (irq_stat w) w ++ rx_events (irq_stat w) w)) ∧
    writes (dw_hdmi_cec_hardirq k w).2.trace = writes w.trace ++
      ((irq_stat w, HDMI_IH_CEC_STAT0) ::
        writes (tx_events (irq_stat w) w ++ rx_events (irq_stat w) w)) ∧
    (∀ p ∈ writes (tx_events (irq_stat w) w ++ rx_events (irq_stat w) w),
      p.2 = HDMI_CEC_CTRL ∨ p.2 = HDMI_CEC_LOCK) ∧
    (acked w).cec = w.cec ∧
    (acked w).trace = w.trace ++
      [Ev.rd HDMI_IH_CEC_STAT0, Ev.wr (irq_stat w) HDMI_IH_CEC_STAT0] ∧
    dw_hdmi_cec_hardirq k w =
      hardirq_rx (irq_stat w) (hardirq_tx k (irq_stat w) (acked w)).1
        (hardirq_tx k (irq_stat w) (acked w)).2 ∧
    (dw_hdmi_cec_hardirq_log k w).1 = (dw_hdmi_cec_hardirq k w).1 ∧
    (dw_hdmi_cec_hardirq_log k w).2.w = (dw_hdmi_cec_hardirq k w).2 ∧
    (dw_hdmi_cec_hardirq k w).2.trace =
      w.trace ++ events (dw_hdmi_cec_hardirq_log k w).2.log ∧
    (∃ rest, (dw_hdmi_cec_hardirq_log k w).2.log =
      Step.ev (Ev.rd HDMI_IH_CEC_STAT0) ::
        Step.ev (Ev.wr (irq_stat w) HDMI_IH_CEC_STAT0) :: rest) ∧
    (∀ (pre post : List Step) (f : Field),
      (dw_hdmi_cec_hardirq_log k w).2.log = pre ++ Step.upd f :: post →
      Step.ev (Ev.wr (irq_stat w) HDMI_IH_CEC_STAT0) ∈ pre) ∧
    (∀ (pre post : List Step) (v off : Nat),
      (dw_hdmi_cec_hardirq_log k w).2.log = pre ++ Step.ev (Ev.wr v off) :: post →
      pre ≠ [Step.ev (Ev.rd HDMI_IH_CEC_STAT0)] →
      Step.ev (Ev.wr (irq_stat w) HDMI_IH_CEC_STAT0) ∈ pre) := by
  obtain ⟨l1, l2, l3⟩ := hardirq_log_spec k w
  obtain ⟨rest, hrest⟩ := hardirq_log_head k w h
  refine ⟨hardirq_trace k w h, ?_, ?_, by simp [acked_eq], by simp [acked_eq],
    hardirq_unfold k w h, l1, l2, l3, ⟨rest, hrest⟩, ?_, ?_⟩
  · rw [hardirq_trace k w h]
    simp [writes_append, writes]
  · intro p hp
    simp only [writes_append, List.mem_append] at hp
    rcases hp with hp | hp
    · left
      unfold tx_events at hp
      split at hp <;> simp [writes] at hp
      rw [hp]
    · right
      unfold rx_events at hp
      split at hp
      · simp [writes, writes_append, writes_map_rd] at hp
        rw [hp]
      · simp [writes] at hp
  · intro pre post f hlog
    rw [hrest] at hlog
    refine mem_before_of_head _ _ _ rest pre post hlog ?_ ?_
    · intro e; rw [e] at hlog; simp at hlog
    · intro e; rw [e] at hlog; simp at hlog
  · intro pre post v off hlog hne
    rw [hrest] at hlog
    refine mem_before_of_head _ _ _ rest pre post hlog ?_ hne
    intro e; rw [e] at hlog; simp at hlog

/-- Witness for C16: init-error with a retry left and end-of-message with a
2-byte frame.  The acknowledge is written first, then control, then lock; the
steps are read, write (the acknowledge), then read and write of control and
the assignment of `retries`, then the reads and assignments of the reception,
the write of the lock and the assignments of `rx_msg.len` and `rx_done`. -/
theorem hardirq_ack_first_witness :
    irq_stat (dw_hdmi_cec_transmit 1 0 ping (World.init regs_err_rx2)).2 ≠ 0 ∧
    writes (dw_hdmi_cec_hardirq ⟨1, 4, 32⟩
      (dw_hdmi_cec_transmit 1 0 ping (World.init regs_err_rx2)).2).2.trace =
      writes (dw_hdmi_cec_transmit 1 0 ping (World.init regs_err_rx2)).2.trace ++
        [(0x12, HDMI_IH_CEC_STAT0), (0x03, HDMI_CEC_CTRL), (0, HDMI_CEC_LOCK)] ∧
    (dw_hdmi_cec_hardirq_log ⟨1, 4, 32⟩
      (dw_hdmi_cec_transmit 1 0 ping (World.init regs_err_rx2)).2).2.log.map Step.shape =
      [0, 1, 0, 1, 3, 0, 0, 3, 0, 3, 1, 3, 3] ∧
    updates (dw_hdmi_cec_hardirq_log ⟨1, 4, 32⟩
      (dw_hdmi_cec_transmit 1 0 ping (World.init regs_err_rx2)).2).2.log =
      [Field.retries, Field.rx_msg, Field.rx_msg, Field.rx_msg, Field.rx_done] :=
  ⟨by decide,
    (hardirq_ack_first ⟨1, 4, 32⟩ (dw_hdmi_cec_transmit 1 0 ping (World.init regs_err_rx2)).2
      (by decide)).2.1.trans (by decide),
    by decide, by decide⟩

/-- C19: a reception with clamped length `n` rewrites only the first `n` bytes
of the buffer and the length: `rx_msg.msg[i]` for `i ≥ n` keeps the value it
had before the invocation.  So when a frame of 16 bytes has been received and
a frame of `n < 16` bytes follows, bytes `n..15` of the buffer still hold the
bytes of the earlier frame. -/
theorem rx_tail_kept (k : cec_tx_status) (w : World)
    (h : irq_stat w &&& CEC_STAT_EOM ≠ 0) :
    (∀ i, min (w.regs HDMI_CEC_RX_CNT % 256) 16 ≤ i →
      (dw_hdmi_cec_hardirq k w).2.cec.rx_msg.msg i = w.cec.rx_msg.msg i) ∧
    (∀ r2 : Nat → Nat, 16 ≤ w.regs HDMI_CEC_RX_CNT % 256 →
      r2 HDMI_IH_CEC_STAT0 % 256 &&& CEC_STAT_EOM ≠ 0 → r2 HDMI_CEC_RX_CNT % 256 < 16 →
      (run k [Op.hardirq, Op.thread, Op.hw (fun _ => r2), Op.hardirq] w).cec.rx_msg.len =
        r2 HDMI_CEC_RX_CNT % 256 ∧
      (∀ i, i < r2 HDMI_CEC_RX_CNT % 256 →
        (run k [Op.hardirq, Op.thread, Op.hw (fun _ => r2), Op.hardirq] w).cec.rx_msg.msg i =
          r2 (HDMI_CEC_RX_DATA0 + i) % 256) ∧
      (∀ i, r2 HDMI_CEC_RX_CNT % 256 ≤ i → i < 16 →
        (run k [Op.hardirq, Op.thread, Op.hw (fun _ => r2), Op.hardirq] w).cec.rx_msg.msg i =
          w.regs (HDMI_CEC_RX_DATA0 + i) % 256)) := by
  obtain ⟨m1, -⟩ := hardirq_eom_msg k w h
  refine ⟨?_, ?_⟩
  · intro i hi
    rw [m1]
    have : ¬ i < min (w.regs HDMI_CEC_RX_CNT % 256) 16 := by omega
    simp [this]
  · intro r2 h16 he2 hn
    have hrun : run k [Op.hardirq, Op.thread, Op.hw (fun _ => r2), Op.hardirq] w =
        (dw_hdmi_cec_hardirq k (step k (Op.hw (fun _ => r2))
          (dw_hdmi_cec_thread (dw_hdmi_cec_hardirq k w).2).2)).2 := rfl
    have hst : irq_stat (step k (Op.hw (fun _ => r2))
        (dw_hdmi_cec_thread (dw_hdmi_cec_hardirq k w).2).2) = r2 HDMI_IH_CEC_STAT0 % 256 := rfl
    have hregs : (step k (Op.hw (fun _ => r2))
        (dw_hdmi_cec_thread (dw_hdmi_cec_hardirq k w).2).2).regs = r2 := rfl
    have hmsg : (step k (Op.hw (fun _ => r2))
        (dw_hdmi_cec_thread (dw_hdmi_cec_hardirq k w).2).2).cec.rx_msg =
        (dw_hdmi_cec_hardirq k w).2.cec.rx_msg := by
      simp [step, thread_eq]
    obtain ⟨m2, -⟩ := hardirq_eom_msg k (step k (Op.hw (fun _ => r2))
      (dw_hdmi_cec_thread (dw_hdmi_cec_hardirq k w).2).2) (by rw [hst]; exact he2)
    rw [hrun, m2, hregs, hmsg, m1]
    have hmin2 : min (r2 HDMI_CEC_RX_CNT % 256) 16 = r2 HDMI_CEC_RX_CNT % 256 := by omega
    have hmin1 : min (w.regs HDMI_CEC_RX_CNT % 256) 16 = 16 := by omega
    rw [hmin2, hmin1]
    refine ⟨rfl, ?_, ?_⟩
    · intro i hi
      simp [hi]
    · intro i hi1 hi2
      have : ¬ i < r2 HDMI_CEC_RX_CNT % 256 := by omega
      simp [this, hi2]

/-- Witness for C19: after a 16-byte frame `0xA0..0xAF` and a 2-byte frame
`0x11 0x11`, byte 5 of the buffer is still `0xA5`. -/
theorem rx_tail_kept_witness :
    irq_stat (World.init regs_rx16) &&& CEC_STAT_EOM ≠ 0 ∧
    ((16 : Nat) ≤ (World.init regs_rx16).regs HDMI_CEC_RX_CNT % 256 ∧
      regs_rx2 HDMI_IH_CEC_STAT0 % 256 &&& CEC_STAT_EOM ≠ 0 ∧
      regs_rx2 HDMI_CEC_RX_CNT % 256 < 16) ∧
    (run ⟨1, 4, 32⟩ [Op.hardirq, Op.thread, Op.hw (fun _ => regs_rx2), Op.hardirq]
      (World.init regs_rx16)).cec.rx_msg.len = 2 ∧
    (run ⟨1, 4, 32⟩ [Op.hardirq, Op.thread, Op.hw (fun _ => regs_rx2), Op.hardirq]
      (World.init regs_rx16)).cec.rx_msg.msg 1 = 0x11 ∧
    (run ⟨1, 4, 32⟩ [Op.hardirq, Op.thread, Op.hw (fun _ => regs_rx2), Op.hardirq]
      (World.init regs_rx16)).cec.rx_msg.msg 5 = 0xA5 :=
  ⟨by decide, by decide,
    ((rx_tail_kept ⟨1, 4, 32⟩ (World.init regs_rx16) (by decide)).2 regs_rx2 (by decide)
      (by decide) (by decide)).1.trans (by decide),
    (((rx_tail_kept ⟨1, 4, 32⟩ (World.init regs_rx16) (by decide)).2 regs_rx2 (by decide)
      (by decide) (by decide)).2.1 1 (by decide)).trans (by decide),
    (((rx_tail_kept ⟨1, 4, 32⟩ (World.init regs_rx16) (by decide)).2 regs_rx2 (by decide)
      (by decide) (by decide)).2.2 5 (by decide) (by decide)).trans (by decide)⟩

/-- C18: in every state reached from the zero-initialised controller by the
driver operations (`attempts` an 8-bit value) and hardware register changes,
`0 ≤ retries ≤ 255` and `retries` does not exceed the `attempts` of the most
recent transmit; so the test `retries != 0` of the code agrees with
`retries > 0`, and whenever the handler changes `retries` it was at least 1
and the new value is one less, still not negative. -/
theorem retries_bounds (k : cec_tx_status) (regs : Nat → Nat) (ops : List Op)
    (h : ∀ o ∈ ops, o.attempts_ok) :
    0 ≤ (run k ops (World.init regs)).cec.retries ∧
    (run k ops (World.init regs)).cec.retries ≤ 255 ∧
    (run k ops (World.init regs)).cec.retries ≤ ((last_attempts ops : Nat) : Int) ∧
    ((run k ops (World.init regs)).cec.retries ≠ 0 ↔
      0 < (run k ops (World.init regs)).cec.retries) ∧
    ((dw_hdmi_cec_hardirq k (run k ops (World.init regs))).2.cec.retries ≠
        (run k ops (World.init regs)).cec.retries →
      1 ≤ (run k ops (World.init regs)).cec.retries ∧
      (dw_hdmi_cec_hardirq k (run k ops (World.init regs))).2.cec.retries =
        (run k ops (World.init regs)).cec.retries - 1 ∧
      0 ≤ (dw_hdmi_cec_hardirq k (run k ops (World.init regs))).2.cec.retries) := by
  obtain ⟨r1, r2, r3⟩ := run_retries k ops (World.init regs) 0 h (le_refl _) (le_refl _)
    (by decide)
  refine ⟨r1, ?_, r2, by omega, ?_⟩
  · have : ((last_attempts_from 0 ops : Nat) : Int) ≤ 255 := by exact_mod_cast r3
    exact le_trans r2 this
  · rw [hardirq_retries]
    split
    · intro _; omega
    · intro hne; exact absurd rfl hne

/-- Witness for C18: after `transmit(2, ...)` and one init-error interrupt the
counter is 1. -/
theorem retries_bounds_witness :
    (∀ o ∈ [Op.transmit 2 0 ping, raise 0x10 id, Op.hardirq], o.attempts_ok) ∧
    (run ⟨1, 4, 32⟩ [Op.transmit 2 0 ping, raise 0x10 id, Op.hardirq]
      (World.init (fun _ => 0))).cec.retries = 1 ∧
    last_attempts [Op.transmit 2 0 ping, raise 0x10 id, Op.hardirq] = 2 ∧
    (run ⟨1, 4, 32⟩ [Op.transmit 2 0 ping, raise 0x10 id, Op.hardirq]
      (World.init (fun _ => 0))).cec.retries ≤
        ((last_attempts [Op.transmit 2 0 ping, raise 0x10 id, Op.hardirq] : Nat) : Int) :=
  ⟨by simp [Op.attempts_ok, raise], by decide, by decide,
    (retries_bounds ⟨1, 4, 32⟩ (fun _ => 0) [Op.transmit 2 0 ping, raise 0x10 id, Op.hardirq]
      (by simp [Op.attempts_ok, raise])).2.2.1⟩

end DwHdmiCec
